import Mathlib

/-!
# Aether — formal model of the generation-orchestration engine

A shallow embedding, in Lean 4, of the core of the Aether repository
(`crates/aether-core`): the TOON codec (`toon.rs`), the slot/template model
(`slot.rs`, `template.rs`), and the orchestration engine's healing loop,
cache probe, parallel fan-out and incremental render session (`engine.rs`,
`validation.rs`, `config.rs`).

Strings are modelled as `List Char` (`Str`).  Rust byte positions coincide
with character indices on the ASCII inputs the theorems use.  Machine
integers are modelled as `Nat`/`Int`; the FNV-1a hash carries its explicit
`% 2^64`.  Fallible operations return `Option`/`Except`.  Recursions whose
Rust originals are index-driven loops are modelled with an explicit fuel
parameter; the fuel chosen by the entry points dominates the number of loop
steps the Rust code can take on the same input.
-/

namespace Aether

/-- Strings, modelled as lists of characters. -/
abbrev Str := List Char

/-- Shorthand to obtain a `Str` from a string literal. -/
def s2l (s : String) : Str := s.toList

/-- Whitespace test of Rust's `char::is_whitespace` / `str::trim`: the
Unicode `White_Space` property, i.e. U+0009..U+000D, U+0020, U+0085,
U+00A0, U+1680, U+2000..U+200A, U+2028, U+2029, U+202F, U+205F and
U+3000. -/
def isWS (c : Char) : Bool :=
  decide ((9 ≤ c.toNat ∧ c.toNat ≤ 13) ∨ c.toNat = 32 ∨ c.toNat = 133 ∨
    c.toNat = 160 ∨ c.toNat = 5760 ∨ (8192 ≤ c.toNat ∧ c.toNat ≤ 8202) ∨
    c.toNat = 8232 ∨ c.toNat = 8233 ∨ c.toNat = 8239 ∨ c.toNat = 8287 ∨
    c.toNat = 12288)

/-- Leading-whitespace count of a line: `line.chars().take_while(|c| c.is_whitespace()).count()`. -/
def leadWS (l : Str) : Nat := (l.takeWhile isWS).length

/-- `str::trim_start`. -/
def trimL (l : Str) : Str := l.dropWhile isWS

/-- `str::trim_end`. -/
def trimR (l : Str) : Str := (l.reverse.dropWhile isWS).reverse

/-- `str::trim`. -/
def trim (l : Str) : Str := trimR (trimL l)

/-- Split a string at every occurrence of a separator character,
keeping empty segments (Rust `str::split(sep)`). -/
def splitOnChar (sep : Char) : Str → List Str
  | [] => [[]]
  | c :: cs =>
    if c = sep then [] :: splitOnChar sep cs
    else
      match splitOnChar sep cs with
      | [] => [[c]]
      | l :: ls => (c :: l) :: ls

/-- Decimal digits of a natural number, most significant first
(fuel-driven; `natChars n` uses fuel `n + 1`, always enough). -/
def natCharsAux : Nat → Nat → List Char
  | 0, _ => []
  | f + 1, n =>
    if n < 10 then [Nat.digitChar n]
    else Nat.digitChar (n % 10) :: natCharsAux f (n / 10)

/-- Canonical decimal rendering of a `Nat` (digits reversed into place). -/
def natChars (n : Nat) : Str := (natCharsAux (n + 1) n).reverse

/-- Canonical decimal rendering of an `Int` (Rust `i64::to_string`). -/
def intChars : Int → Str
  | .ofNat n => natChars n
  | .negSucc m => '-' :: natChars (m + 1)

/-- Numeric value of a decimal digit character. -/
def digitVal (c : Char) : Nat := c.toNat - '0'.toNat

/-- Parse a nonempty all-digit string into a `Nat`. -/
def parseNatDigits (s : Str) : Option Nat :=
  if s.isEmpty then none
  else if s.all Char.isDigit then some (s.foldl (fun a c => a * 10 + digitVal c) 0)
  else none

/-- Rust `i64::from_str`: optional single sign, one or more digits,
overflow is an error. -/
def parseI64 (s : Str) : Option Int :=
  match s with
  | [] => none
  | c :: rest =>
    if c = '+' then
      (parseNatDigits rest).bind fun n =>
        if n ≤ 2 ^ 63 - 1 then some (Int.ofNat n) else none
    else if c = '-' then
      (parseNatDigits rest).bind fun n =>
        if n ≤ 2 ^ 63 then some (-(n : Int)) else none
    else
      (parseNatDigits (c :: rest)).bind fun n =>
        if n ≤ 2 ^ 63 - 1 then some (Int.ofNat n) else none

/-- ASCII lower-casing of one character. -/
def asciiLower (c : Char) : Char :=
  if 'A' ≤ c ∧ c ≤ 'Z' then Char.ofNat (c.toNat + 32) else c

/-- The unsigned non-finite literals accepted by Rust `f64::from_str`:
`inf`, `infinity`, `nan`, case-insensitively. -/
def isInfNanBody (s : Str) : Bool :=
  let low := s.map asciiLower
  low = s2l "inf" || low = s2l "infinity" || low = s2l "nan"

/-- Exponent part of a float literal: optional sign then one or more digits. -/
def isSignedDigits (s : Str) : Bool :=
  match s with
  | '+' :: r => !r.isEmpty && r.all Char.isDigit
  | '-' :: r => !r.isEmpty && r.all Char.isDigit
  | r => !r.isEmpty && r.all Char.isDigit

/-- Mantissa of a float literal: `D+`, `D+ '.' D*` or `D* '.' D+`. -/
def isMantissa (s : Str) : Bool :=
  let intPart := s.takeWhile Char.isDigit
  let rest := s.dropWhile Char.isDigit
  match rest with
  | [] => !intPart.isEmpty
  | '.' :: frac => (!intPart.isEmpty || !frac.isEmpty) && frac.all Char.isDigit
  | _ => false

/-- Split a candidate float literal at its first exponent marker. -/
def splitAtExpMark : Str → (Str × Option Str)
  | [] => ([], none)
  | c :: cs =>
    if c = 'e' || c = 'E' then ([], some cs)
    else
      match splitAtExpMark cs with
      | (m, e) => (c :: m, e)

/-- Number body of a float literal (mantissa with optional exponent). -/
def isF64NumberBody (s : Str) : Bool :=
  match splitAtExpMark s with
  | (m, none) => isMantissa m
  | (m, some e) => isMantissa m && isSignedDigits e

/-- Acceptance test for Rust `f64::from_str`:
optional sign, then `inf`/`infinity`/`nan` (case-insensitive) or a number. -/
def isF64Lit (s : Str) : Bool :=
  match s with
  | '+' :: r => isInfNanBody r || isF64NumberBody r
  | '-' :: r => isInfNanBody r || isF64NumberBody r
  | r => isInfNanBody r || isF64NumberBody r

/-- Literals whose `f64` value is non-finite by their written form
(`serde_json::Number::from_f64` rejects those, so the Rust decoder keeps
them as strings).  Finite literals whose *value* overflows to infinity
(e.g. `1e999`) are not distinguished by this syntactic test; no theorem in
this file depends on such inputs. -/
def isNonFiniteLit (s : Str) : Bool :=
  match s with
  | '+' :: r => isInfNanBody r
  | '-' :: r => isInfNanBody r
  | r => isInfNanBody r

/-- `s.replace(',', "\\,")` — escape commas (used inside tabular rows). -/
def escapeCommas (s : Str) : Str :=
  (s.map fun c => if c = ',' then ['\\', ','] else [c]).flatten

/-- `s.replace("\\,", ",")` — unescape commas in decoded string scalars
(leftmost non-overlapping occurrences, as Rust `str::replace`). -/
def unescapeCommas : Str → Str
  | [] => []
  | [c] => [c]
  | c :: c' :: rest =>
    if c = '\\' && c' = ',' then ',' :: unescapeCommas rest
    else c :: unescapeCommas (c' :: rest)

/-- `needle.is_prefix_of haystack`, as Rust `str::starts_with`. -/
def strStarts (needle hay : Str) : Bool := needle.isPrefixOf hay

/-- Rust `str::contains` (substring containment). -/
def containsSub (needle : Str) : Str → Bool
  | [] => needle.isEmpty
  | c :: rest => strStarts needle (c :: rest) || containsSub needle rest

/-- Rust `str::ends_with` for a single character. -/
def endsWithChar (c : Char) (s : Str) : Bool :=
  match s.reverse with
  | c' :: _ => c' = c
  | [] => false

/-- Byte-lexicographic order on strings (Rust `String: Ord`; UTF-8 byte
order agrees with scalar-value order). -/
def strLt : Str → Str → Bool
  | [], [] => false
  | [], _ :: _ => true
  | _ :: _, [] => false
  | a :: as, b :: bs => a.toNat < b.toNat || (a = b && strLt as bs)

-- ============================================================
-- TOON codec (crates/aether-core/src/toon.rs)
-- ============================================================

/-- The JSON-like value tree (`serde_json::Value`).  Numbers are split into
exact integers (`i64` range in all theorems) and floating-point literals;
`float` carries the literal text, since binary floating point is outside
this embedding (no theorem below constructs or inspects a `float`). -/
inductive JValue where
  | null : JValue
  | bool (b : Bool) : JValue
  | int (n : Int) : JValue
  | float (lit : Str) : JValue
  | str (s : Str) : JValue
  | arr (elems : List JValue) : JValue
  | obj (fields : List (Str × JValue)) : JValue
deriving Repr

namespace JValue

/-- Fields of objects follow `serde_json::Map` (a `BTreeMap`): insertion
keeps keys strictly sorted and replaces an existing binding. -/
def insertSorted (k : Str) (v : JValue) : List (Str × JValue) → List (Str × JValue)
  | [] => [(k, v)]
  | (k', v') :: rest =>
    if strLt k k' then (k, v) :: (k', v') :: rest
    else if k = k' then (k, v) :: rest
    else (k', v') :: insertSorted k v rest

/-- `Map::get` on the sorted field list. -/
def getField (k : Str) : List (Str × JValue) → Option JValue
  | [] => none
  | (k', v') :: rest => if k = k' then some v' else getField k rest

end JValue

/-- `Toon::serialize_flat` — scalar rendering inside a tabular row:
strings with commas escaped, numbers, `T`/`F`; anything else becomes `"."`. -/
def serializeFlat : JValue → Str
  | .str s => escapeCommas s
  | .int n => intChars n
  | .float lit => lit
  | .bool b => if b then ['T'] else ['F']
  | _ => ['.']

/-- One comma-joined tabular value row (fields in header-key order, missing
fields as `~`).  Non-object items produce no row (Rust's `if let` skips them). -/
def tabRow (keys : List Str) (pad : Str) (item : JValue) : Str :=
  match item with
  | .obj itemMap =>
    pad ++ (List.intersperse [','] (keys.map fun k =>
      match JValue.getField k itemMap with
      | some v => serializeFlat v
      | none => ['~'])).flatten ++ ['\n']
  | _ => []

/-- The tabular rows for the remaining items of an array. -/
def tabRows (keys : List Str) (pad : Str) : List JValue → Str
  | [] => []
  | item :: rest => tabRow keys pad item ++ tabRows keys pad rest

mutual

/-- `Toon::serialize`. -/
def serializeVal : JValue → Str
  | .obj m => serializeObject m 0
  | .arr a => serializeArray a 0
  | .str s => s
  | .int n => intChars n
  | .float lit => lit
  | .bool b => if b then ['T'] else ['F']
  | .null => ['~']

/-- `Toon::serialize_object`: one `key: value` line per field, with nested
objects/arrays recursing at `indent + 1` under a `key:` / `key[len]:` header. -/
def serializeObject : List (Str × JValue) → Nat → Str
  | [], _ => []
  | (k, v) :: rest, ind =>
    let pad : Str := List.replicate (2 * ind) ' '
    (match v with
     | .obj childMap =>
       pad ++ k ++ [':', '\n'] ++ serializeObject childMap (ind + 1)
     | .arr a =>
       pad ++ k ++ ['['] ++ natChars a.length ++ [']', ':', '\n'] ++ serializeArray a (ind + 1)
     | scalar =>
       pad ++ k ++ [':', ' '] ++ serializeVal scalar ++ ['\n'])
    ++ serializeObject rest ind

/-- `Toon::serialize_array`: `"[]"` when empty; tabular header (first
element's key order) plus comma-joined rows when the first element is an
object; otherwise one `- value` line per element. -/
def serializeArray : List JValue → Nat → Str
  | [], _ => ['[', ']']
  | first :: rest, ind =>
    let pad : Str := List.replicate (2 * ind) ' '
    match first with
    | .obj firstMap =>
      let keys := firstMap.map (·.1)
      pad ++ ['{'] ++ (List.intersperse [','] keys).flatten ++ ['\x7d', ':', '\n']
        ++ tabRow keys pad (.obj firstMap) ++ tabRows keys pad rest
    | v => pad ++ ['-', ' '] ++ trim (serializeVal v) ++ ['\n'] ++ serializeDashRows pad rest

/-- The `- value` lines for the remaining items of a plain array. -/
def serializeDashRows (pad : Str) : List JValue → Str
  | [] => []
  | v :: rest => pad ++ ['-', ' '] ++ trim (serializeVal v) ++ ['\n'] ++ serializeDashRows pad rest

end

/-- `Toon::parse_primitive`: `~` / `T` / `F`, then `i64`, then `f64`
(non-finite forms fall back to the raw string), else an unescaped string. -/
def parsePrimitive (s : Str) : JValue :=
  if s = ['~'] then .null
  else if s = ['T'] then .bool true
  else if s = ['F'] then .bool false
  else
    match parseI64 s with
    | some n => .int n
    | none =>
      if isF64Lit s then
        if isNonFiniteLit s then .str s else .float s
      else .str (unescapeCommas s)

/-- Key normalisation in the object parser: strip a `[len]` suffix. -/
def stripLenSuffix (k : Str) : Str :=
  if k.contains '[' && endsWithChar ']' k then k.takeWhile (· ≠ '[') else k

/-- Split a trimmed line at its first `':'` (Rust `line.find(':')`). -/
def splitFirstColon : Str → Option (Str × Str)
  | [] => none
  | c :: rest =>
    if c = ':' then some ([], rest)
    else (splitFirstColon rest).map fun p => (c :: p.1, p.2)

/-- Does the next line exist and sit strictly deeper than `cur`? -/
def nextMoreIndented (cur : Nat) : List Str → Bool
  | [] => false
  | nl :: _ => cur < leadWS nl

/-- Tabular header keys: `header.trim_start_matches('{').trim_end_matches("}:")`
then split on commas and trim. -/
def dropColonBraceRev : Str → Str
  | ':' :: '\x7d' :: rest => dropColonBraceRev rest
  | r => r

/-- Keys of a tabular header line (already trimmed). -/
def tabularKeys (t : Str) : List Str :=
  ((splitOnChar ',' ((dropColonBraceRev (t.dropWhile (· = '{')).reverse).reverse)).map trim)

mutual

/-- `Toon::parse_level`, cursor-as-remainder form: the Rust index `idx`
into the global line array becomes the suffix of still-unread lines, and
an explicit fuel bounds the loop steps (the entry point supplies more fuel
than the Rust loops can consume). -/
def parseLevel : Nat → List Str → Option (JValue × List Str)
  | 0, _ => none
  | _ + 1, [] => some (.null, [])
  | fuel + 1, l :: ls =>
    let t := trim l
    let ind := leadWS l
    if strStarts ['{'] t && containsSub ['}', ':'] t then
      parseTabRows fuel ind (tabularKeys t) true [] ls
    else if strStarts ['-', ' '] t then
      parseListRows fuel ind [] (l :: ls)
    else
      parseObjLines fuel ind [] (l :: ls)

/-- `Toon::parse_tabular` row loop (`first` marks `idx == start_idx + 1`,
which is exempt from the indentation break). -/
def parseTabRows : Nat → Nat → List Str → Bool → List JValue → List Str →
    Option (JValue × List Str)
  | 0, _, _, _, _, _ => none
  | _ + 1, _, _, _, acc, [] => some (.arr acc, [])
  | fuel + 1, base, keys, first, acc, l :: ls =>
    let cur := leadWS l
    let rt := trim l
    if !first && !rt.isEmpty && cur < base then some (.arr acc, l :: ls)
    else if rt.isEmpty then parseTabRows fuel base keys false acc ls
    else
      let values := (splitOnChar ',' rt).map fun v => parsePrimitive (trim v)
      let row := (List.range keys.length).foldl
        (fun m i => JValue.insertSorted (keys.getD i []) (values.getD i .null) m) []
      parseTabRows fuel base keys false (acc ++ [.obj row]) ls

/-- `Toon::parse_list` row loop. -/
def parseListRows : Nat → Nat → List JValue → List Str → Option (JValue × List Str)
  | 0, _, _, _ => none
  | _ + 1, _, acc, [] => some (.arr acc, [])
  | fuel + 1, base, acc, l :: ls =>
    let cur := leadWS l
    if cur < base then some (.arr acc, l :: ls)
    else
      let t := trim l
      if strStarts ['-', ' '] t then
        parseListRows fuel base (acc ++ [parsePrimitive (t.drop 2)]) ls
      else parseListRows fuel base acc ls

/-- The object branch of `Toon::parse_level` (the `key: value` loop). -/
def parseObjLines : Nat → Nat → List (Str × JValue) → List Str →
    Option (JValue × List Str)
  | 0, _, _, _ => none
  | _ + 1, _, acc, [] => some (.obj acc, [])
  | fuel + 1, ind, acc, l :: ls =>
    let cur := leadWS l
    if cur < ind then some (.obj acc, l :: ls)
    else if ind < cur then parseObjLines fuel ind acc ls
    else
      let t := trim l
      match splitFirstColon t with
      | none => parseObjLines fuel ind acc ls
      | some (k0, rest0) =>
        let key := stripLenSuffix (trim k0)
        let valPart := trim rest0
        if valPart.isEmpty && nextMoreIndented cur ls then
          match parseLevel fuel ls with
          | none => none
          | some (child, rem) => parseObjLines fuel ind (JValue.insertSorted key child acc) rem
        else
          parseObjLines fuel ind (JValue.insertSorted key (parsePrimitive valPart) acc) ls

end

/-- Characters allowed in keys of the round-trippable class: ASCII
alphanumerics and `'_'` (no colon, bracket, brace, dash or whitespace, so a
key can never be mistaken for parser syntax). -/
def safeKeyChar (c : Char) : Bool :=
  ('a' ≤ c && c ≤ 'z') || ('A' ≤ c && c ≤ 'Z') || ('0' ≤ c && c ≤ '9') || c = '_'

/-- Keys of the round-trippable class. -/
def safeKey (k : Str) : Bool := !k.isEmpty && k.all safeKeyChar

/-- Strings of the round-trippable class: nonempty, no surrounding
whitespace, no newline, no backslash, and not parseable as one of the other
primitives (`~`, `T`, `F`, an `i64`, or an `f64` literal). -/
def safeStr (s : Str) : Bool :=
  !s.isEmpty && trimL s = s && trimR s = s &&
  !s.contains '\n' && !s.contains '\\' &&
  s ≠ ['~'] && s ≠ ['T'] && s ≠ ['F'] &&
  (parseI64 s).isNone && !isF64Lit s

/-- Scalars of the round-trippable class (`float` is excluded: binary
floating point is outside this embedding). -/
def safeScalar : JValue → Bool
  | .null => true
  | .bool _ => true
  | .int n => -(2 ^ 63 : Int) ≤ n && n ≤ 2 ^ 63 - 1
  | .str s => safeStr s
  | _ => false

/-- Strictly increasing keys, as a `serde_json::Map` (`BTreeMap`) yields. -/
def keysSorted : List (Str × JValue) → Bool
  | [] => true
  | [_] => true
  | (k, _) :: (k', v') :: rest => strLt k k' && keysSorted ((k', v') :: rest)

/-- Elements of a round-trippable array are safe scalars (tabular arrays
of objects are *not* in the class: the decoder's naive comma split and the
`serialize_flat` rendering of `null` as `"."` both break the inverse). -/
def safeElems : List JValue → Bool
  | [] => true
  | v :: rest => safeScalar v && safeElems rest

mutual

/-- The round-trippable value class: nested objects with sorted safe keys
and at least one field, nonempty arrays of safe scalars, and safe scalars. -/
def safeVal : JValue → Bool
  | .obj m => !m.isEmpty && keysSorted m && safeFields m
  | .arr a => !a.isEmpty && safeElems a
  | v => safeScalar v

/-- All fields of an object have safe keys and round-trippable values. -/
def safeFields : List (Str × JValue) → Bool
  | [] => true
  | (k, v) :: rest => safeKey k && safeVal v && safeFields rest

end

mutual

/-- Fuel that provably suffices for `parseObjLines` on the lines of a safe
field list (over-approximating the nested loop steps). -/
def costFields : List (Str × JValue) → Nat
  | [] => 1
  | (_, v) :: rest => costField v + costFields rest

/-- Fuel contribution of a single field's value. -/
def costField : JValue → Nat
  | .obj cm => 2 + costFields cm
  | .arr a => 3 + a.length
  | _ => 1

end

-- ============================================================
-- Slot model (crates/aether-core/src/slot.rs)
-- ============================================================

/-- `SlotKind` — the kind of a slot (`cls` models `Class`). -/
inductive SlotKind where
  | raw : SlotKind
  | function : SlotKind
  | cls : SlotKind
  | html : SlotKind
  | css : SlotKind
  | javaScript : SlotKind
  | component : SlotKind
  | custom (s : Str) : SlotKind
deriving DecidableEq, Repr

/-- `SlotConstraints` — optional limits attached to a slot. -/
structure SlotConstraints where
  maxLines : Option Nat
  maxChars : Option Nat
  requiredImports : List Str
  forbiddenPatterns : List Str
  language : Option Str
  testHarness : Option Str
  testCommand : Option Str
deriving DecidableEq, Repr

/-- `Slot` — a named injection point.  `temperature` carries the `f32` bit
pattern (`to_bits`), since only those bits enter the stable hash.
`maxTokens`/`model` are the per-slot request overrides the engine reads
(`slot.max_tokens` / `slot.model` in `engine.rs`); the `slot.rs` snapshot
in the repository predates them, so they are excluded from the snapshot's
`Hash` implementation, which this embedding follows. -/
structure Slot where
  name : Str
  prompt : Str
  kind : SlotKind
  constraints : Option SlotConstraints
  required : Bool
  default : Option Str
  temperature : Option Nat
  maxTokens : Option Nat
  model : Option Str
deriving DecidableEq, Repr

/-- `Slot::new`. -/
def Slot.new (name prompt : Str) : Slot :=
  { name := name
    prompt := prompt
    kind := .raw
    constraints := none
    required := true
    default := none
    temperature := none
    maxTokens := none
    model := none }

/-- `Slot::with_kind`. -/
def Slot.withKind (s : Slot) (k : SlotKind) : Slot := { s with kind := k }

/-- `Slot::optional`. -/
def Slot.optional (s : Slot) (d : Str) : Slot :=
  { s with required := false, default := some d }

-- ============================================================
-- Template model (crates/aether-core/src/template.rs)
-- ============================================================

/-- Errors of `AetherError` used by the modelled components. -/
inductive AErr where
  | slotNotFound (name : Str) : AErr
  | providerError (msg : Str) : AErr
  | networkError (msg : Str) : AErr
  | injectionError (msg : Str) : AErr
  | validationFailed (slot : Str) (error : Str) : AErr
  | maxRetriesExceeded (slot : Str) (retries : Nat) (lastError : Str) : AErr
  | contextSerializationError (msg : Str) : AErr
deriving DecidableEq, Repr

/-- First character of a slot-name identifier: `[a-zA-Z_]`. -/
def isIdentStart (c : Char) : Bool :=
  ('a' ≤ c && c ≤ 'z') || ('A' ≤ c && c ≤ 'Z') || c = '_'

/-- Later characters of a slot-name identifier: `[a-zA-Z0-9_]`. -/
def isIdentChar (c : Char) : Bool := isIdentStart c || ('0' ≤ c && c ≤ '9')

/-- `[a-zA-Z]`, the kind-hint alphabet. -/
def isAlphaChar (c : Char) : Bool := ('a' ≤ c && c ≤ 'z') || ('A' ≤ c && c ≤ 'Z')

/-- `Template::parse_kind`: lower-case the hint and map it onto a kind
(unknown hints become `Custom` of the lower-cased text). -/
def parseKind (s : Str) : SlotKind :=
  let low := s.map asciiLower
  if low = s2l "raw" then .raw
  else if low = s2l "function" || low = s2l "fn" then .function
  else if low = s2l "class" || low = s2l "struct" then .cls
  else if low = s2l "html" then .html
  else if low = s2l "css" then .css
  else if low = s2l "js" || low = s2l "javascript" then .javaScript
  else if low = s2l "component" then .component
  else .custom low

/-- A parsed slot location (`SlotLocation`): name, span, optional kind. -/
structure SlotLoc where
  name : Str
  start : Nat
  stop : Nat
  kind : Option SlotKind
deriving DecidableEq, Repr

/-- Try to match the slot pattern
`\x7b\x7bAI:([a-zA-Z_][a-zA-Z0-9_]*)(?::([a-zA-Z]+))?\x7d\x7d`
at the head of `l`; on success return the length of the full match, the
captured name, and the parsed kind hint.  Because the name alphabet
excludes `:` and `\x7d` and both captures are maximal runs, the regex
match at a position is exactly this deterministic scan. -/
def matchSlot (l : Str) : Option (Nat × Str × Option SlotKind) :=
  match l with
  | '\x7b' :: '\x7b' :: 'A' :: 'I' :: ':' :: rest =>
    match rest with
    | [] => none
    | c :: rest' =>
      if isIdentStart c then
        let ident := c :: rest'.takeWhile isIdentChar
        let after := rest'.dropWhile isIdentChar
        match after with
        | '\x7d' :: '\x7d' :: _ => some (5 + ident.length + 2, ident, none)
        | ':' :: rest2 =>
          let hint := rest2.takeWhile isAlphaChar
          if hint.isEmpty then none
          else
            match rest2.dropWhile isAlphaChar with
            | '\x7d' :: '\x7d' :: _ =>
              some (5 + ident.length + 1 + hint.length + 2, ident, some (parseKind hint))
            | _ => none
        | _ => none
      else none
  | _ => none

/-- Leftmost non-overlapping matches of the slot pattern with their spans
(`Regex::captures_iter`): try each position left to right, skipping past a
match once found.  The fuel equals the remaining length, which each step
strictly consumes. -/
def scanSlots : Nat → Str → Nat → List SlotLoc
  | 0, _, _ => []
  | _ + 1, [], _ => []
  | f + 1, c :: cs, pos =>
    match matchSlot (c :: cs) with
    | some (len, nm, kd) =>
      ⟨nm, pos, pos + len, kd⟩ :: scanSlots f (List.drop len (c :: cs)) (pos + len)
    | none => scanSlots f cs (pos + 1)

/-- All slot-pattern matches of a content string, in increasing position. -/
def findMatches (content : Str) : List SlotLoc :=
  scanSlots (content.length + 1) content 0

/-- `HashMap::insert` on an association list: replace in place or append. -/
def upsertSlot (key : Str) (v : Slot) : List (Str × Slot) → List (Str × Slot)
  | [] => [(key, v)]
  | (k', v') :: rest =>
    if k' = key then (k', v) :: rest else (k', v') :: upsertSlot key v rest

/-- `Template::parse_slots`: one auto-created slot per match, with the
placeholder prompt and the optional kind hint; a name matched twice keeps
one entry, last occurrence winning. -/
def parseSlots (content : Str) : List (Str × Slot) :=
  (findMatches content).foldl
    (fun acc loc =>
      let slot0 := Slot.new loc.name (s2l "Generate code for: " ++ loc.name)
      let slot := match loc.kind with
        | some k => slot0.withKind k
        | none => slot0
      upsertSlot loc.name slot acc) []

/-- `Template` (metadata omitted: no modelled operation reads it). -/
structure Template where
  content : Str
  name : Str
  slots : List (Str × Slot)
deriving DecidableEq, Repr

/-- `Template::new`. -/
def Template.new (content : Str) : Template :=
  { content := content, name := s2l "unnamed", slots := parseSlots content }

/-- Update only the prompt of an existing slot (`slots.get_mut`). -/
def updatePrompt (n p : Str) : List (Str × Slot) → List (Str × Slot)
  | [] => []
  | (k, s) :: rest =>
    if k = n then (k, { s with prompt := p }) :: rest
    else (k, s) :: updatePrompt n p rest

/-- `Template::with_slot`: update the prompt of an existing slot, else
insert a fresh `Slot::new`. -/
def Template.withSlot (t : Template) (n p : Str) : Template :=
  if (List.lookup n t.slots).isSome then { t with slots := updatePrompt n p t.slots }
  else { t with slots := t.slots ++ [(n, Slot.new n p)] }

/-- `Template::configure_slot`. -/
def Template.configureSlot (t : Template) (s : Slot) : Template :=
  { t with slots := upsertSlot s.name s t.slots }

/-- Insert one location into a start-descending list (the comparison sort
`locations.sort_by(|a, b| b.start.cmp(&a.start))` produces exactly a
start-descending ordering; scan order makes all starts distinct). -/
def insertDesc (x : SlotLoc) : List SlotLoc → List SlotLoc
  | [] => [x]
  | y :: ys => if y.start ≤ x.start then x :: y :: ys else y :: insertDesc x ys

/-- Sort locations by start, descending. -/
def sortByStartDesc (xs : List SlotLoc) : List SlotLoc := xs.foldr insertDesc []

/-- `Template::find_locations`: all matches, sorted by position in reverse
order for replacement. -/
def Template.findLocations (t : Template) : List SlotLoc :=
  sortByStartDesc (findMatches t.content)

/-- `String::replace_range` on our character strings. -/
def replaceRange (s : Str) (start stop : Nat) (code : Str) : Str :=
  s.take start ++ code ++ s.drop stop

/-- The replacement loop of `Template::render`, processing locations in
the given (reverse-position) order over the mutable result string. -/
def renderGo (slots : List (Str × Slot)) (inj : List (Str × Str)) :
    List SlotLoc → Str → Except AErr Str
  | [], result => .ok result
  | loc :: locs, result =>
    match List.lookup loc.name inj with
    | some code => renderGo slots inj locs (replaceRange result loc.start loc.stop code)
    | none =>
      match List.lookup loc.name slots with
      | some slot =>
        if slot.required then .error (.slotNotFound loc.name)
        else renderGo slots inj locs
          (replaceRange result loc.start loc.stop (slot.default.getD []))
      | none => .error (.slotNotFound loc.name)

/-- `Template::render`. -/
def Template.render (t : Template) (inj : List (Str × Str)) : Except AErr Str :=
  renderGo t.slots inj t.findLocations t.content

-- ============================================================
-- Engine model (crates/aether-core/src/engine.rs,
-- config.rs, provider.rs, validation.rs)
-- ============================================================

/-- `AetherConfig` (fields the modelled operations read; the inspector
fields and the `f32` cache threshold are unused by them). -/
structure AetherConfig where
  toonEnabled : Bool
  healingEnabled : Bool
  cacheEnabled : Bool
  parallel : Bool
  maxRetries : Nat
  autoToonThreshold : Option Nat
  promptToonHeader : Str
  promptToonNote : Str
  promptHealingFeedback : Str
  promptTddNotice : Str
  retryBackoffMs : Nat
deriving DecidableEq, Repr

/-- `AetherConfig::default`. -/
def AetherConfig.defaultCfg : AetherConfig :=
  { toonEnabled := false
    healingEnabled := false
    cacheEnabled := false
    parallel := true
    maxRetries := 2
    autoToonThreshold := some 2000
    promptToonHeader := s2l "[CONTEXT:TOON]"
    promptToonNote := s2l "[TOON Protocol Note]\nTOON is a compact key:value mapping protocol. Each line represents \x27key: value\x27. Use this context to inform your code generation, respecting the framework, language, and architectural constraints defined within."
    promptHealingFeedback := s2l "[SELF-HEALING FEEDBACK]\nYour previous output had validation errors. Please fix them and output ONLY the corrected code.\nERROR:\n"
    promptTddNotice := s2l "\n\nIMPORTANT: The system is running in TDD (Test-Driven Development) mode. Your code will be validated against compiler checks and functional tests. If possible, include unit tests in your response to help self-verify. If validation fails, you will receive feedback to fix the code."
    retryBackoffMs := 100 }

/-- `AetherConfig::should_use_toon`. -/
def AetherConfig.shouldUseToon (cfg : AetherConfig) (contextLength : Nat) : Bool :=
  if cfg.toonEnabled then true
  else match cfg.autoToonThreshold with
    | some threshold => decide (threshold ≤ contextLength)
    | none => false

/-- `GenerationRequest` as the engine builds it (`max_tokens` and `model`
copied from the slot's per-slot overrides). -/
structure GenRequest where
  slot : Slot
  context : Option Str
  systemPrompt : Option Str
  model : Option Str
  maxTokens : Option Nat
deriving DecidableEq, Repr

/-- `GenerationResponse`. -/
structure GenResponse where
  code : Str
  tokensUsed : Option Nat
  metadata : Option JValue
deriving Repr

/-- `ValidationResult` of `validation.rs`. -/
inductive ValidationResult where
  | valid : ValidationResult
  | invalid (msg : Str) : ValidationResult
deriving DecidableEq, Repr

-- ------------------------------------------------------------
-- Stable FNV-1a hashing (`StableHasher` in engine.rs)
-- ------------------------------------------------------------

/-- UTF-8 encoding of one character, as byte values. -/
def utf8Bytes (c : Char) : List Nat :=
  let n := c.toNat
  if n < 128 then [n]
  else if n < 2048 then [192 + n / 64, 128 + n % 64]
  else if n < 65536 then [224 + n / 4096, 128 + n / 64 % 64, 128 + n % 64]
  else [240 + n / 262144, 128 + n / 4096 % 64, 128 + n / 64 % 64, 128 + n % 64]

/-- UTF-8 bytes of a string. -/
def strBytes (s : Str) : List Nat := (s.map utf8Bytes).flatten

/-- `width` little-endian bytes of an integer (`to_ne_bytes` on the
x86-64 targets the crate builds for; the default `Hasher` methods feed
integers to `write` in this byte order). -/
def leBytes (width n : Nat) : List Nat :=
  (List.range width).map (fun i => n / 256 ^ i % 256)

/-- `Hash for str`: the UTF-8 bytes followed by a `0xff` terminator byte. -/
def strHashBytes (s : Str) : List Nat := strBytes s ++ [255]

/-- Derived `Hash for Option<T>`: the `isize` discriminant (`None` = 0,
`Some` = 1) then the payload. -/
def optBytes (f : α → List Nat) : Option α → List Nat
  | none => leBytes 8 0
  | some x => leBytes 8 1 ++ f x

/-- `Hash for Vec<String>`: a `usize` length prefix then the elements. -/
def vecStrBytes (xs : List Str) : List Nat :=
  leBytes 8 xs.length ++ (xs.map strHashBytes).flatten

/-- Derived `Hash for SlotKind`: the `isize` discriminant in declaration
order, plus the payload string for `Custom`. -/
def slotKindBytes : SlotKind → List Nat
  | .raw => leBytes 8 0
  | .function => leBytes 8 1
  | .cls => leBytes 8 2
  | .html => leBytes 8 3
  | .css => leBytes 8 4
  | .javaScript => leBytes 8 5
  | .component => leBytes 8 6
  | .custom s => leBytes 8 7 ++ strHashBytes s

/-- Derived `Hash for SlotConstraints`: the fields in declaration order. -/
def constraintsBytes (c : SlotConstraints) : List Nat :=
  optBytes (leBytes 8) c.maxLines ++ optBytes (leBytes 8) c.maxChars ++
  vecStrBytes c.requiredImports ++ vecStrBytes c.forbiddenPatterns ++
  optBytes strHashBytes c.language ++ optBytes strHashBytes c.testHarness ++
  optBytes strHashBytes c.testCommand

/-- The manual `Hash for Slot` of `slot.rs`: name, prompt, kind,
constraints, required (one `u8` byte), default, and — only when present —
the `f32` bit pattern of the temperature as a `u32`. -/
def slotHashBytes (s : Slot) : List Nat :=
  strHashBytes s.name ++ strHashBytes s.prompt ++ slotKindBytes s.kind ++
  optBytes constraintsBytes s.constraints ++
  [if s.required then 1 else 0] ++
  optBytes strHashBytes s.default ++
  (match s.temperature with
    | some bits => leBytes 4 bits
    | none => [])

/-- `StableHasher`: 64-bit FNV-1a over a byte stream. -/
def stableHash (bytes : List Nat) : Nat :=
  bytes.foldl (fun h b => (h ^^^ b) * 1099511628211 % 2 ^ 64) 14695981039346656037

/-- `RenderSession::hash` of a slot. -/
def slotStableHash (s : Slot) : Nat := stableHash (slotHashBytes s)

-- ------------------------------------------------------------
-- Cache keys (`generate_with_healing_static`, step 0)
-- ------------------------------------------------------------

/-- Lower-case hex digits of `n`, as `format!("\x7b:x\x7d", n)` prints
them (`"0"` for zero, no leading zeros otherwise). -/
def hexChars : Nat → List Char
  | n =>
    let rec go : Nat → Nat → List Char → List Char
      | 0, _, acc => acc
      | _ + 1, 0, acc => acc
      | f + 1, m, acc => go f (m / 16) (Nat.digitChar (m % 16) :: acc)
    if n = 0 then ['0'] else go 64 n []

/-- The byte stream hashed for a request's cache key: the slot prompt, the
context (or `""`), the model (or `""`) — each a `str` hash — then the
`max_tokens` value (or `0`) as a `u32`. -/
def cacheKeyBytes (req : GenRequest) : List Nat :=
  strHashBytes req.slot.prompt ++ strHashBytes (req.context.getD []) ++
  strHashBytes (req.model.getD []) ++ leBytes 4 (req.maxTokens.getD 0)

/-- `format!("aether:cache:\x7b:x\x7d", s.finish())`. -/
def cacheKey (req : GenRequest) : Str :=
  s2l "aether:cache:" ++ hexChars (stableHash (cacheKeyBytes req))

/-- The `json!(\x7b"cache": "hit"\x7d)` metadata attached to cache hits. -/
def cacheHitMeta : JValue := .obj [(s2l "cache", .str (s2l "hit"))]

-- ------------------------------------------------------------
-- Self-healing generation loop
-- ------------------------------------------------------------

/-- Display strings of `AetherError` (`thiserror` formats; the variants
the engine constructs but the `error.rs` snapshot omits are given the
engine's own wording for them). Only the retry-exhaustion message embeds
these, and no modelled property inspects that message. -/
def errToString : AErr → Str
  | .slotNotFound name => s2l "Slot \x27" ++ name ++ s2l "\x27 not found in template"
  | .providerError msg => s2l "AI provider error: " ++ msg
  | .networkError msg => s2l "Network error: " ++ msg
  | .injectionError msg => s2l "Injection error: " ++ msg
  | .validationFailed slot e => s2l "Validation failed for slot \x27" ++ slot ++ s2l "\x27: " ++ e
  | .maxRetriesExceeded slot _ lastError =>
    s2l "Max retries exceeded for slot \x27" ++ slot ++ s2l "\x27: " ++ lastError
  | .contextSerializationError msg => s2l "Context serialization error: " ++ msg

/-- A validator as the engine sees one: a formatter and the
slot-aware validation entry point, both fallible. -/
structure ValidatorModel where
  format : SlotKind → Str → Except AErr Str
  validateWithSlot : Slot → Str → Except AErr ValidationResult

/-- Observable outcome of one `generate_with_healing_static` run: the
returned value, how many times the backend was invoked, the backoff
sleeps performed (in milliseconds), and the cache writes issued. -/
structure HealOutcome where
  result : Except AErr GenResponse
  backendCalls : Nat
  sleeps : List Nat
  cacheWrites : List (Str × Str)

/-- Record a cache write when a key was computed. -/
def addWrite (key? : Option Str) (code : Str) (ws : List (Str × Str)) : List (Str × Str) :=
  match key? with
  | some k => ws ++ [(k, code)]
  | none => ws

/-- The `for attempt in 0..=max_retries` body of
`generate_with_healing_static`.  `gen i` is the backend's answer to its
`i`-th invocation (`i` counts all calls so far); `remaining` is
`max_retries - attempt`, the loop's remaining iterations after this one;
`prevCode` holds the previous attempt's raw (pre-format) code for the
stuck-loop check; `lastError` mirrors the `last_error` variable. -/
def healLoop (cfg : AetherConfig) (validator : Option ValidatorModel) (key? : Option Str)
    (gen : Nat → GenRequest → Except AErr GenResponse) :
    GenRequest → Nat → Nat → Option AErr → Option Str → Nat → List Nat →
    List (Str × Str) → HealOutcome
  | req, attempt, remaining, _lastError, prevCode, calls, sleeps, writes =>
    match gen calls req with
    | .error e =>
      match remaining with
      | r + 1 =>
        healLoop cfg validator key? gen req (attempt + 1) r (some e) prevCode
          (calls + 1) (sleeps ++ [cfg.retryBackoffMs * (attempt + 1)]) writes
      | 0 => ⟨.error e, calls + 1, sleeps, writes⟩
    | .ok resp =>
      if prevCode = some resp.code then
        ⟨.error (.maxRetriesExceeded req.slot.name attempt
            (s2l "AI stuck in loop (generated identical code)")),
          calls + 1, sleeps, writes⟩
      else
        match validator with
        | none => ⟨.ok resp, calls + 1, sleeps, addWrite key? resp.code writes⟩
        | some val =>
          let resp' := match val.format req.slot.kind resp.code with
            | .ok formatted => { resp with code := formatted }
            | .error _ => resp
          match val.validateWithSlot req.slot resp'.code with
          | .error e => ⟨.error e, calls + 1, sleeps, writes⟩
          | .ok .valid => ⟨.ok resp', calls + 1, sleeps, addWrite key? resp'.code writes⟩
          | .ok (.invalid errMsg) =>
            let le' := AErr.validationFailed req.slot.name errMsg
            match remaining with
            | r + 1 =>
              let p' := req.slot.prompt ++ s2l "\n\n" ++ cfg.promptHealingFeedback ++ errMsg
              let req' := { req with slot := { req.slot with prompt := p' } }
              healLoop cfg validator key? gen req' (attempt + 1) r (some le')
                (some resp.code) (calls + 1) sleeps writes
            | 0 =>
              ⟨.error (.maxRetriesExceeded req.slot.name cfg.maxRetries
                  (errToString le')),
                calls + 1, sleeps, writes⟩

/-- `generate_with_healing_static`: probe the cache (when one is
configured), then run the retry loop.  `cache` is the configured cache's
`get`, if any. -/
def generateWithHealing (cfg : AetherConfig) (validator : Option ValidatorModel)
    (cache : Option (Str → Option Str)) (gen : Nat → GenRequest → Except AErr GenResponse)
    (req : GenRequest) : HealOutcome :=
  match cache with
  | some c =>
    let key := cacheKey req
    match c key with
    | some cachedCode =>
      ⟨.ok ⟨cachedCode, none, some cacheHitMeta⟩, 0, [], []⟩
    | none => healLoop cfg validator (some key) gen req 0 cfg.maxRetries none none 0 [] []
  | none => healLoop cfg validator none gen req 0 cfg.maxRetries none none 0 [] []

-- ------------------------------------------------------------
-- Parallel generation (`generate_parallel`)
-- ------------------------------------------------------------

/-- The `join_next` collection loop of `generate_parallel`, applied to the
per-slot outcomes in completion order: `result??` propagates the first
error; successes accumulate into the injection map. -/
def collectJoin : List (Str × Except AErr GenResponse) → Except AErr (List (Str × Str))
  | [] => .ok []
  | (name, .ok resp) :: rest =>
    match collectJoin rest with
    | .ok inj => .ok ((name, resp.code) :: inj)
    | .error e => .error e
  | (_, .error e) :: _ => .error e

/-- Parallel rendering after all workers finish: collect in completion
order, then render the template with the collected injections. -/
def renderParallel (t : Template) (completed : List (Str × Except AErr GenResponse)) :
    Except AErr Str :=
  match collectJoin completed with
  | .ok inj => t.render inj
  | .error e => .error e

-- ------------------------------------------------------------
-- Incremental rendering (`render_incremental`)
-- ------------------------------------------------------------

/-- A `RenderSession`: results keyed by (slot hash, context hash). -/
def RenderSession := List ((Nat × Nat) × Str)

/-- `HashMap::insert` on a session. -/
def sessionInsert (key : Nat × Nat) (v : Str) : RenderSession → RenderSession
  | [] => [(key, v)]
  | (k', v') :: rest =>
    if k' = key then (k', v) :: rest else (k', v') :: sessionInsert key v rest

/-- Outcome of `render_incremental`: the rendered result, the updated
session, and the slots for which `generate_slot` was actually invoked, in
order. -/
structure IncrementalOutcome where
  result : Except AErr Str
  session : RenderSession
  generated : List Str
  injections : List (Str × Str)

/-- The per-slot loop of `render_incremental`.  `gen` is the observable
behaviour of `generate_slot` for a slot (the full provider pipeline
behind it, abstracted to its returned code); `ctxHash` is
`RenderSession::hash(&global_context)`, an opaque fingerprint here since
the snapshot gives no `Hash` instance for `InjectionContext`. -/
def incrGo (gen : Slot → Except AErr Str) (ctxHash : Nat) :
    List (Str × Slot) → RenderSession → List Str → List (Str × Str) →
    Except AErr (List (Str × Str)) × RenderSession × List Str
  | [], sess, called, inj => (.ok inj, sess, called)
  | (name, slot) :: rest, sess, called, inj =>
    let key := (slotStableHash slot, ctxHash)
    match List.lookup key sess with
    | some cached => incrGo gen ctxHash rest sess called (inj ++ [(name, cached)])
    | none =>
      match gen slot with
      | .error e => (.error e, sess, called ++ [name])
      | .ok code =>
        incrGo gen ctxHash rest (sessionInsert key code sess)
          (called ++ [name]) (inj ++ [(name, code)])

/-- `render_incremental`: walk the template's slots, reusing session
entries and generating only on fingerprint misses, then render. -/
def renderIncremental (gen : Slot → Except AErr Str) (ctxHash : Nat)
    (t : Template) (sess : RenderSession) : IncrementalOutcome :=
  match incrGo gen ctxHash t.slots sess [] [] with
  | (.error e, sess', called) => ⟨.error e, sess', called, []⟩
  | (.ok inj, sess', called) => ⟨t.render inj, sess', called, inj⟩

-- ------------------------------------------------------------
-- MultiValidator (`validation.rs`)
-- ------------------------------------------------------------

/-- The Python heuristic of `MultiValidator::validate_with_slot`
(`&&` binds tighter than `||` in the source). -/
def detectPython (code : Str) : Bool :=
  containsSub (s2l "def ") code ||
    (containsSub (s2l "import ") code && containsSub (s2l ":") code)

/-- The JavaScript heuristic of `MultiValidator::validate_with_slot`. -/
def detectJs (code : Str) : Bool :=
  containsSub (s2l "function ") code || containsSub (s2l "const ") code ||
    containsSub (s2l "=>") code

/-- `MultiValidator::validate_with_slot`, parameterised by the behaviour
of the four tool-running sub-validators (each shells out to external
commands in the source). -/
def multiValidateWithSlot
    (jsV pyV rustV : SlotKind → Str → Except AErr ValidationResult)
    (tddV : Slot → Str → Except AErr ValidationResult)
    (slot : Slot) (code : Str) : Except AErr ValidationResult :=
  let base : Except AErr ValidationResult :=
    match slot.kind with
    | .javaScript => jsV slot.kind code
    | .html => .ok .valid
    | .css => .ok .valid
    | .raw => .ok .valid
    | _ =>
      if detectPython code then pyV slot.kind code
      else if detectJs code then jsV slot.kind code
      else rustV slot.kind code
  match base with
  | .error e => .error e
  | .ok (.invalid e) => .ok (.invalid e)
  | .ok .valid =>
    match slot.constraints with
    | some c => if c.testHarness.isSome then tddV slot code else .ok .valid
    | none => .ok .valid

-- ------------------------------------------------------------
-- Full sequential pipeline (`render` → `generate_all` → `Template::render`)
-- ------------------------------------------------------------

/-- The context assembly of `generate_all` for `render` (no extra
context): the global context's prompt rendering, optionally TOON-packed
(the global context's `serde_json` value is passed in alongside its
prompt form), plus the TDD notice when a validator is installed. -/
def buildContextPrompt (cfg : AetherConfig) (validatorPresent : Bool)
    (globalPrompt : Str) (globalValue : JValue) : Str :=
  let base := globalPrompt
  let ctx := if cfg.shouldUseToon base.length then
      cfg.promptToonHeader ++ ['\n'] ++ serializeVal globalValue ++
        s2l "\n\n" ++ cfg.promptToonNote
    else base
  if validatorPresent then ctx ++ cfg.promptTddNotice else ctx

/-- The sequential branch of `generate_all`: one healing run per slot in
slot order, aborting on the first error; `calls` threads a global
invocation counter through so `gen` indexes backend calls overall. -/
def generateAllSeq (cfg : AetherConfig) (validator : Option ValidatorModel)
    (cache : Option (Str → Option Str)) (gen : Nat → GenRequest → Except AErr GenResponse)
    (ctxPrompt : Str) : List (Str × Slot) → Nat → Except AErr (List (Str × Str))
  | [], _ => .ok []
  | (name, slot) :: rest, calls =>
    let req : GenRequest :=
      { slot := slot, context := some ctxPrompt, systemPrompt := none
        model := slot.model, maxTokens := slot.maxTokens }
    let outcome := generateWithHealing cfg validator cache (fun i r => gen (calls + i) r) req
    match outcome.result with
    | .ok resp =>
      match generateAllSeq cfg validator cache gen ctxPrompt rest (calls + outcome.backendCalls) with
      | .ok inj => .ok ((name, resp.code) :: inj)
      | .error e => .error e
    | .error e => .error e

/-- `InjectionEngine::render` in sequential mode (`config.parallel =
false`): build the context prompt, generate every slot, render. -/
def engineRenderSeq (cfg : AetherConfig) (validator : Option ValidatorModel)
    (cache : Option (Str → Option Str)) (gen : Nat → GenRequest → Except AErr GenResponse)
    (globalPrompt : Str) (globalValue : JValue) (t : Template) : Except AErr Str :=
  let ctxPrompt := buildContextPrompt cfg validator.isSome globalPrompt globalValue
  match generateAllSeq cfg validator cache gen ctxPrompt t.slots 0 with
  | .ok inj => t.render inj
  | .error e => .error e

/-- The replacement text `Template::render` chooses for one location: the
caller's injection when present, else the slot's default (empty when the
default is absent). -/
def fillValue (slots : List (Str × Slot)) (inj : List (Str × Str)) (loc : SlotLoc) : Str :=
  match List.lookup loc.name inj with
  | some code => code
  | none =>
    match List.lookup loc.name slots with
    | some s => s.default.getD []
    | none => []

theorem char_eq_of_toNat_eq {a b : Char} (h : a.toNat = b.toNat) : a = b := by
  rw [← Char.ofNat_toNat a, ← Char.ofNat_toNat b, h]

theorem isWS_false_of_safeKeyChar {c : Char} (h : safeKeyChar c = true) :
    isWS c = false := by
  unfold safeKeyChar at h
  unfold isWS
  simp only [Bool.or_eq_true, Bool.and_eq_true, decide_eq_true_eq] at h
  simp only [decide_eq_false_iff_not]
  rcases h with ((h | h) | h) | h
  · have n1 : 97 ≤ c.toNat := h.1
    have n2 : c.toNat ≤ 122 := h.2
    omega
  · have n1 : 65 ≤ c.toNat := h.1
    have n2 : c.toNat ≤ 90 := h.2
    omega
  · have n1 : 48 ≤ c.toNat := h.1
    have n2 : c.toNat ≤ 57 := h.2
    omega
  · subst h; decide

theorem trimL_length_le (l : Str) : (trimL l).length ≤ l.length :=
  (List.dropWhile_suffix _).length_le

theorem trimR_length_le (l : Str) : (trimR l).length ≤ l.length := by
  unfold trimR
  have := (List.dropWhile_suffix (l := l.reverse) isWS).length_le
  simpa using this

theorem trimL_eq_of_length (l : Str) (h : (trimL l).length = l.length) :
    trimL l = l :=
  (List.dropWhile_suffix _).eq_of_length h

theorem trimR_eq_of_length (l : Str) (h : (trimR l).length = l.length) :
    trimR l = l := by
  unfold trimR at h ⊢
  have hs := List.dropWhile_suffix (l := l.reverse) isWS
  have hlen : (l.reverse.dropWhile isWS).length = l.reverse.length := by
    simpa using h
  have := hs.eq_of_length hlen
  rw [this, List.reverse_reverse]

theorem trim_eq_self_parts {l : Str} (h : trim l = l) :
    trimL l = l ∧ trimR l = l := by
  unfold trim at h
  have h1 : (trimL l).length ≤ l.length := trimL_length_le l
  have h2 : (trimR (trimL l)).length ≤ (trimL l).length := trimR_length_le _
  have hL : trimL l = l := by
    apply trimL_eq_of_length
    have : l.length ≤ (trimR (trimL l)).length := by rw [h]
    omega
  rw [hL] at h
  exact ⟨hL, h⟩

theorem digitChar_isDigit : ∀ k, k < 10 → (Nat.digitChar k).isDigit = true := by decide

theorem natCharsAux_fuel : ∀ n f g, n ≤ f → n ≤ g →
    natCharsAux (f + 1) n = natCharsAux (g + 1) n := by
  intro n
  induction n using Nat.strong_induction_on with
  | _ n ih =>
    intro f g hf hg
    unfold natCharsAux
    by_cases h : n < 10
    · simp [h]
    · simp only [h, if_false]
      have h10 : 10 ≤ n := by omega
      obtain ⟨f', rfl⟩ : ∃ f', f = f' + 1 := ⟨f - 1, by omega⟩
      obtain ⟨g', rfl⟩ : ∃ g', g = g' + 1 := ⟨g - 1, by omega⟩
      have hdiv : n / 10 < n := Nat.div_lt_self (by omega) (by omega)
      rw [ih (n / 10) hdiv f' g' (by omega) (by omega)]

theorem natChars_small {n : Nat} (h : n < 10) : natChars n = [Nat.digitChar n] := by
  unfold natChars natCharsAux
  simp [h]

theorem natChars_step {n : Nat} (h : 10 ≤ n) :
    natChars n = natChars (n / 10) ++ [Nat.digitChar (n % 10)] := by
  obtain ⟨n', rfl⟩ : ∃ n', n = n' + 1 := ⟨n - 1, by omega⟩
  show (natCharsAux (n' + 1 + 1) (n' + 1)).reverse = _
  rw [natCharsAux, if_neg (by omega : ¬ (n' + 1) < 10)]
  rw [natCharsAux_fuel ((n' + 1) / 10) n' ((n' + 1) / 10) (by omega) (le_refl _)]
  simp [natChars]

theorem natChars_digits : ∀ n, ∀ c ∈ natChars n, c.isDigit = true := by
  intro n
  induction n using Nat.strong_induction_on with
  | _ n ih =>
    intro c hc
    by_cases h : n < 10
    · rw [natChars_small h] at hc
      rcases List.mem_singleton.mp hc with rfl
      exact digitChar_isDigit n h
    · rw [natChars_step (by omega)] at hc
      rcases List.mem_append.mp hc with hc | hc
      · exact ih (n / 10) (Nat.div_lt_self (by omega) (by omega)) c hc
      · rcases List.mem_singleton.mp hc with rfl
        exact digitChar_isDigit _ (Nat.mod_lt _ (by omega))

theorem isWS_false_of_isDigit {c : Char} (h : c.isDigit = true) : isWS c = false := by
  unfold Char.isDigit at h
  simp only [Bool.and_eq_true, decide_eq_true_eq] at h
  have n1 : 48 ≤ c.toNat := h.1
  have n2 : c.toNat ≤ 57 := h.2
  unfold isWS
  simp only [decide_eq_false_iff_not]
  omega

theorem safeKey_parts {k : Str} (h : safeKey k = true) :
    k ≠ [] ∧ ∀ c ∈ k, safeKeyChar c = true := by
  unfold safeKey at h
  simp only [Bool.and_eq_true, Bool.not_eq_true', List.isEmpty_eq_false,
    List.all_eq_true] at h
  exact ⟨by simpa using h.1, h.2⟩

theorem safeKey_all_not_ws {k : Str} (hk : safeKey k = true) :
    ∀ c ∈ k, isWS c = false := fun c hc =>
  isWS_false_of_safeKeyChar ((safeKey_parts hk).2 c hc)

theorem header_chars_not_ws {k : Str} {n : Nat} (hk : safeKey k = true) :
    ∀ c ∈ k ++ '[' :: (natChars n ++ [']']), isWS c = false := by
  intro c hc
  rcases List.mem_append.mp hc with hc | hc
  · exact safeKey_all_not_ws hk c hc
  · rcases List.mem_cons.mp hc with rfl | hc
    · decide
    · rcases List.mem_append.mp hc with hc | hc
      · exact isWS_false_of_isDigit (natChars_digits n c hc)
      · simp only [List.mem_singleton] at hc
        subst hc
        decide

/-- **C8, counterexample.**  The claimed template literal uses the marker
`X:content` between double braces, which the slot pattern (it requires the
`AI:` prefix) does not match: the sequential pipeline with the stub backend
returns the template text unchanged, not `<div><p>Hello</p></div>`. -/
theorem engine_render_literal_marker_counterexample :
    engineRenderSeq { AetherConfig.defaultCfg with parallel := false } none none
        (fun _ r => .ok ⟨if r.slot.name = s2l "content" then s2l "<p>Hello</p>"
            else s2l "// Generated code for: " ++ r.slot.name, some 10, none⟩)
        [] .null (Template.new (s2l "<div>\x7b\x7bX:content\x7d\x7d</div>"))
      = .ok (s2l "<div>\x7b\x7bX:content\x7d\x7d</div>") ∧
    s2l "<div>\x7b\x7bX:content\x7d\x7d</div>" ≠ s2l "<div><p>Hello</p></div>" :=
  ⟨rfl, by decide⟩

/-- **C8, amended.**  With the marker spelled with the `AI:` prefix —
template `<div>` + marker for slot `content` + `</div>` — the sequential
pipeline (default config with `parallel := false`, no validator, no cache,
stub backend mapping slot `content` to `<p>Hello</p>`) produces exactly
`<div><p>Hello</p></div>`. -/
theorem engine_render_ai_marker :
    engineRenderSeq { AetherConfig.defaultCfg with parallel := false } none none
        (fun _ r => .ok ⟨if r.slot.name = s2l "content" then s2l "<p>Hello</p>"
            else s2l "// Generated code for: " ++ r.slot.name, some 10, none⟩)
        [] .null (Template.new (s2l "<div>\x7b\x7bAI:content\x7d\x7d</div>"))
      = .ok (s2l "<div><p>Hello</p></div>") := rfl

/-- **C4.**  With a cache configured and holding a value under the
request's derived key, generation returns that cached text with the
cache-hit metadata tag and the backend is invoked zero times; moreover the
derived key depends exactly on the slot prompt, the context string, the
model override and the token-limit override: any request agreeing on those
four components yields the same key. -/
theorem cache_hit_short_circuit (cfg : AetherConfig) (validator : Option ValidatorModel)
    (c : Str → Option Str) (gen : Nat → GenRequest → Except AErr GenResponse)
    (req : GenRequest) (code : Str)
    (hhit : c (cacheKey req) = some code) :
    (generateWithHealing cfg validator (some c) gen req).result =
      .ok ⟨code, none, some cacheHitMeta⟩ ∧
    (generateWithHealing cfg validator (some c) gen req).backendCalls = 0 ∧
    ∀ req' : GenRequest, req'.slot.prompt = req.slot.prompt → req'.context = req.context →
      req'.model = req.model → req'.maxTokens = req.maxTokens →
      cacheKey req' = cacheKey req := by
  refine ⟨?_, ?_, ?_⟩
  · simp [generateWithHealing, hhit]
  · simp [generateWithHealing, hhit]
  · intro req' h1 h2 h3 h4
    simp [cacheKey, cacheKeyBytes, h1, h2, h3, h4]

/-- **C4, witness.**  A concrete pre-populated cache short-circuits: the
backend (which always fails here, so any invocation would surface) is
never called and the cached text comes back tagged as a hit. -/
theorem cache_hit_short_circuit_witness :
    (generateWithHealing AetherConfig.defaultCfg none (some (fun _ => some (s2l "cached")))
        (fun _ _ => .error (.networkError []))
        ⟨Slot.new (s2l "a") (s2l "p"), none, none, none, none⟩).result =
      .ok ⟨s2l "cached", none, some cacheHitMeta⟩ ∧
    (generateWithHealing AetherConfig.defaultCfg none (some (fun _ => some (s2l "cached")))
        (fun _ _ => .error (.networkError []))
        ⟨Slot.new (s2l "a") (s2l "p"), none, none, none, none⟩).backendCalls = 0 :=
  ⟨(cache_hit_short_circuit AetherConfig.defaultCfg none (fun _ => some (s2l "cached"))
      (fun _ _ => .error (.networkError []))
      ⟨Slot.new (s2l "a") (s2l "p"), none, none, none, none⟩ (s2l "cached") rfl).1,
   (cache_hit_short_circuit AetherConfig.defaultCfg none (fun _ => some (s2l "cached"))
      (fun _ _ => .error (.networkError []))
      ⟨Slot.new (s2l "a") (s2l "p"), none, none, none, none⟩ (s2l "cached") rfl).2.1⟩

/-- **C9.**  For a slot of kind `Html`, `Css` or `Raw` whose constraints
carry no TDD test harness, `MultiValidator::validate_with_slot` answers
`Valid` for every input text and for every possible behaviour of the four
tool-running sub-validators — none of them (hence no external command) is
consulted. -/
theorem multi_validator_markup_valid
    (jsV pyV rustV : SlotKind → Str → Except AErr ValidationResult)
    (tddV : Slot → Str → Except AErr ValidationResult)
    (slot : Slot) (code : Str)
    (hkind : slot.kind = .html ∨ slot.kind = .css ∨ slot.kind = .raw)
    (hharness : slot.constraints.bind (fun c => c.testHarness) = none) :
    multiValidateWithSlot jsV pyV rustV tddV slot code = .ok .valid := by
  rcases slot with ⟨n, p, k, cs, r, d, t, mt, mdl⟩
  rcases hkind with h | h | h <;> simp only at h <;> subst h <;>
    rcases cs with _ | c <;> simp_all [multiValidateWithSlot]

/-- **C9, witness.**  A concrete `Html` slot with constraints present but
no harness: even sub-validators that always fail are never consulted, and
Python-looking text is still accepted. -/
theorem multi_validator_markup_valid_witness :
    multiValidateWithSlot (fun _ _ => .error (.injectionError []))
      (fun _ _ => .error (.injectionError [])) (fun _ _ => .error (.injectionError []))
      (fun _ _ => .error (.injectionError []))
      { (Slot.new (s2l "s") (s2l "p")).withKind .html with constraints := some ⟨none, none, [], [], none, none, none⟩ }
      (s2l "def x: import y") = .ok .valid :=
  multi_validator_markup_valid _ _ _ _ _ _ (Or.inl rfl) rfl

/-- **C7.**  In parallel mode, when every worker that completed before
some slot succeeded and that slot's generation terminally failed, the
collection loop returns exactly that error and the whole render surfaces
it — no rendered document, and the sibling successes are discarded. -/
theorem parallel_first_error_aborts (t : Template)
    (pre post : List (Str × Except AErr GenResponse)) (nm : Str) (e : AErr)
    (hpre : ∀ p ∈ pre, ∃ r, p.2 = .ok r) :
    collectJoin (pre ++ (nm, .error e) :: post) = .error e ∧
    renderParallel t (pre ++ (nm, .error e) :: post) = .error e := by
  have hcj : collectJoin (pre ++ (nm, .error e) :: post) = .error e := by
    induction pre with
    | nil => rfl
    | cons hd tl ih =>
      obtain ⟨r, hr⟩ := hpre hd (by simp)
      have ih' := ih (fun p hp => hpre p (by simp [hp]))
      obtain ⟨n', x⟩ := hd
      simp only at hr
      subst hr
      simp [collectJoin, ih']
  exact ⟨hcj, by simp [renderParallel, hcj]⟩

/-- **C7, witness.**  One successful sibling plus one failed slot: the
render of a concrete template returns the failure, not a document. -/
theorem parallel_first_error_aborts_witness :
    renderParallel (Template.new (s2l "\x7b\x7bAI:a\x7d\x7d"))
      [(s2l "a", .ok ⟨s2l "c", none, none⟩), (s2l "b", .error (.providerError (s2l "boom")))]
      = .error (.providerError (s2l "boom")) :=
  (parallel_first_error_aborts (Template.new (s2l "\x7b\x7bAI:a\x7d\x7d"))
    [(s2l "a", .ok ⟨s2l "c", none, none⟩)] [] (s2l "b") (.providerError (s2l "boom"))
    (fun p hp => ⟨⟨s2l "c", none, none⟩, by simp only [List.mem_singleton] at hp; rw [hp]⟩)).2


/-- When the backend fails on every invocation, the retry loop runs all
its remaining iterations: one backend call per iteration, one backoff
sleep of `retryBackoffMs * (attempt + 1)` after each non-final failure,
and the last iteration's error as the result. -/
theorem healLoop_allFail (cfg : AetherConfig) (validator : Option ValidatorModel)
    (key? : Option Str) (gen : Nat → GenRequest → Except AErr GenResponse)
    (errOf : Nat → AErr) (hfail : ∀ i r, gen i r = .error (errOf i)) :
    ∀ (remaining attempt calls : Nat) (lastE : Option AErr) (prev : Option Str)
      (sleeps : List Nat) (writes : List (Str × Str)) (req : GenRequest),
      healLoop cfg validator key? gen req attempt remaining lastE prev calls sleeps writes =
        ⟨.error (errOf (calls + remaining)), calls + remaining + 1,
         sleeps ++ (List.range remaining).map (fun j => cfg.retryBackoffMs * (attempt + j + 1)),
         writes⟩ := by
  intro remaining
  induction remaining with
  | zero =>
    intro attempt calls lastE prev sleeps writes req
    rw [healLoop.eq_1, hfail]
    show HealOutcome.mk (Except.error (errOf calls)) (calls + 1) sleeps writes = _
    simp
  | succ r ih =>
    intro attempt calls lastE prev sleeps writes req
    rw [healLoop.eq_1, hfail]
    show healLoop cfg validator key? gen req (attempt + 1) r (some (errOf calls)) prev
      (calls + 1) (sleeps ++ [cfg.retryBackoffMs * (attempt + 1)]) writes = _
    rw [ih]
    congr 1
    · exact congrArg (fun n => Except.error (errOf n)) (by omega)
    · omega
    · rw [List.append_assoc, List.singleton_append]
      congr 1
      rw [List.range_succ_eq_map, List.map_cons, List.map_map]
      refine congrArg₂ List.cons (by simp) ?_
      refine List.map_congr_left fun a _ => ?_
      simp only [Function.comp]
      exact congrArg (fun n => cfg.retryBackoffMs * n) (by omega)

/-- **C2.**  With no cache and a backend whose every invocation fails
(call `i` failing with `errOf i`), generation invokes the backend exactly
`maxRetries + 1` times, sleeps `retryBackoffMs * (i + 1)` between
consecutive attempts `i` and `i + 1` for each `i < maxRetries`, and
returns the final call's error as a terminal failure. -/
theorem backend_failure_retry_exhaustion (cfg : AetherConfig)
    (validator : Option ValidatorModel) (gen : Nat → GenRequest → Except AErr GenResponse)
    (req : GenRequest) (errOf : Nat → AErr)
    (hfail : ∀ i r, gen i r = .error (errOf i)) :
    (generateWithHealing cfg validator none gen req).result = .error (errOf cfg.maxRetries) ∧
    (generateWithHealing cfg validator none gen req).backendCalls = cfg.maxRetries + 1 ∧
    (generateWithHealing cfg validator none gen req).sleeps =
      (List.range cfg.maxRetries).map (fun i => cfg.retryBackoffMs * (i + 1)) := by
  have h := healLoop_allFail cfg validator none gen errOf hfail
    cfg.maxRetries 0 0 none none [] [] req
  have hg : generateWithHealing cfg validator none gen req =
      healLoop cfg validator none gen req 0 cfg.maxRetries none none 0 [] [] := rfl
  rw [hg, h]
  exact ⟨by simp, by simp, by simp⟩

/-- **C2, witness.**  Default configuration (two retries, 100 ms base
backoff): an always-failing backend is called three times, the sleeps are
100 ms then 200 ms, and the third call's error is returned. -/
theorem backend_failure_retry_exhaustion_witness :
    (generateWithHealing AetherConfig.defaultCfg none none
        (fun i _ => .error (.networkError (natChars i)))
        ⟨Slot.new (s2l "a") (s2l "p"), none, none, none, none⟩).result =
      .error (.networkError (natChars 2)) ∧
    (generateWithHealing AetherConfig.defaultCfg none none
        (fun i _ => .error (.networkError (natChars i)))
        ⟨Slot.new (s2l "a") (s2l "p"), none, none, none, none⟩).backendCalls = 3 ∧
    (generateWithHealing AetherConfig.defaultCfg none none
        (fun i _ => .error (.networkError (natChars i)))
        ⟨Slot.new (s2l "a") (s2l "p"), none, none, none, none⟩).sleeps = [100, 200] := by
  have h := backend_failure_retry_exhaustion AetherConfig.defaultCfg none
    (fun i _ => .error (.networkError (natChars i)))
    ⟨Slot.new (s2l "a") (s2l "p"), none, none, none, none⟩
    (fun i => .networkError (natChars i)) (fun _ _ => rfl)
  exact ⟨h.1, h.2.1, h.2.2.trans (by decide)⟩


/-- **C3.**  With a validator configured that rejects every text (with a
total formatter), a backend whose first two calls return responses with
byte-identical code aborts the healing loop at the second attempt: the
result is the stuck-generation error carrying attempt count 1 (the index
of the aborting attempt — only two attempts were made), the backend was
invoked exactly twice, and — whenever `maxRetries ≥ 2` — that is strictly
fewer invocations than the `maxRetries + 1` the budget allows. -/
theorem stuck_generation_aborts (cfg : AetherConfig) (V : ValidatorModel)
    (gen : Nat → GenRequest → Except AErr GenResponse) (req : GenRequest)
    (resp0 resp1 : GenResponse) (fmtOf : SlotKind → Str → Str) (msgOf : Slot → Str → Str)
    (h0 : ∀ r, gen 0 r = .ok resp0)
    (h1 : ∀ r, gen 1 r = .ok resp1)
    (hsame : resp1.code = resp0.code)
    (hfmt : ∀ k c, V.format k c = .ok (fmtOf k c))
    (hval : ∀ s c, V.validateWithSlot s c = .ok (.invalid (msgOf s c)))
    (hretries : 2 ≤ cfg.maxRetries) :
    (generateWithHealing cfg (some V) none gen req).result =
      .error (.maxRetriesExceeded req.slot.name 1
        (s2l "AI stuck in loop (generated identical code)")) ∧
    (generateWithHealing cfg (some V) none gen req).backendCalls = 2 ∧
    (generateWithHealing cfg (some V) none gen req).backendCalls < cfg.maxRetries + 1 := by
  obtain ⟨m, hm⟩ : ∃ m, cfg.maxRetries = m + 2 := ⟨cfg.maxRetries - 2, by omega⟩
  have hrun : generateWithHealing cfg (some V) none gen req =
      ⟨.error (.maxRetriesExceeded req.slot.name 1
        (s2l "AI stuck in loop (generated identical code)")), 2, [], []⟩ := by
    have hg : generateWithHealing cfg (some V) none gen req =
        healLoop cfg (some V) none gen req 0 cfg.maxRetries none none 0 [] [] := rfl
    rw [hg, hm, healLoop.eq_1, h0]
    simp only [hfmt, hval]
    rw [healLoop.eq_1, h1]
    simp [hsame]
  rw [hrun]
  exact ⟨rfl, rfl, by simp [hm]⟩

/-- **C3, witness.**  Default configuration (budget of two retries), a
backend that always answers the same code, and an always-rejecting
validator with identity formatting: the run stops after two of the three
allowed calls with the stuck error at attempt count 1. -/
theorem stuck_generation_aborts_witness :
    (generateWithHealing AetherConfig.defaultCfg
        (some ⟨fun _ c => .ok c, fun _ _ => .ok (.invalid (s2l "bad"))⟩) none
        (fun _ _ => .ok ⟨s2l "x", none, none⟩)
        ⟨Slot.new (s2l "a") (s2l "p"), none, none, none, none⟩).result =
      .error (.maxRetriesExceeded (s2l "a") 1
        (s2l "AI stuck in loop (generated identical code)")) ∧
    (generateWithHealing AetherConfig.defaultCfg
        (some ⟨fun _ c => .ok c, fun _ _ => .ok (.invalid (s2l "bad"))⟩) none
        (fun _ _ => .ok ⟨s2l "x", none, none⟩)
        ⟨Slot.new (s2l "a") (s2l "p"), none, none, none, none⟩).backendCalls = 2 := by
  have h := stuck_generation_aborts AetherConfig.defaultCfg
    ⟨fun _ c => .ok c, fun _ _ => .ok (.invalid (s2l "bad"))⟩
    (fun _ _ => .ok ⟨s2l "x", none, none⟩)
    ⟨Slot.new (s2l "a") (s2l "p"), none, none, none, none⟩
    ⟨s2l "x", none, none⟩ ⟨s2l "x", none, none⟩
    (fun _ c => c) (fun _ _ => s2l "bad")
    (fun _ => rfl) (fun _ => rfl) rfl (fun _ _ => rfl) (fun _ _ => rfl) (by decide)
  exact ⟨h.1, h.2.1⟩


-- ============================================================
-- Template rendering and auto-created slots: helper lemmas
-- ============================================================

/-- Membership after a map insert: the new pair or an old one. -/
theorem upsertSlot_mem (k : Str) (v : Slot) :
    ∀ (l : List (Str × Slot)) (p : Str × Slot),
      p ∈ upsertSlot k v l → p = (k, v) ∨ p ∈ l := by
  intro l
  induction l with
  | nil =>
    intro p hp
    simp only [upsertSlot, List.mem_singleton] at hp
    exact Or.inl hp
  | cons hd tl ih =>
    intro p hp
    obtain ⟨k', v'⟩ := hd
    by_cases hk : k' = k
    · simp only [upsertSlot, if_pos hk, List.mem_cons] at hp
      rcases hp with h | h
      · exact Or.inl (by rw [h, hk])
      · exact Or.inr (List.mem_cons_of_mem _ h)
    · simp only [upsertSlot, if_neg hk, List.mem_cons] at hp
      rcases hp with h | h
      · exact Or.inr (h ▸ List.mem_cons_self _ _)
      · rcases ih p h with h2 | h2
        · exact Or.inl h2
        · exact Or.inr (List.mem_cons_of_mem _ h2)

/-- Lookup after a map insert. -/
theorem upsertSlot_lookup (k n : Str) (v : Slot) :
    ∀ l : List (Str × Slot),
      List.lookup n (upsertSlot k v l) = if n = k then some v else List.lookup n l := by
  intro l
  induction l with
  | nil =>
    by_cases hn : n = k
    · have hb : (n == k) = true := beq_iff_eq.mpr hn
      simp [upsertSlot, List.lookup, hb, hn]
    · have hb : (n == k) = false := beq_eq_false_iff_ne.mpr hn
      simp [upsertSlot, List.lookup, hb, hn]
  | cons hd tl ih =>
    obtain ⟨k', v'⟩ := hd
    by_cases hk : k' = k
    · subst hk
      by_cases hn : n = k'
      · have hb : (n == k') = true := beq_iff_eq.mpr hn
        simp [upsertSlot, List.lookup, hb, hn]
      · have hb : (n == k') = false := beq_eq_false_iff_ne.mpr hn
        simp [upsertSlot, List.lookup, hb, hn]
    · by_cases hn : n = k'
      · have hb : (n == k') = true := beq_iff_eq.mpr hn
        have hnk : ¬n = k := fun h => hk (hn.symm.trans h)
        simp [upsertSlot, hk, List.lookup, hb, hnk]
      · have hb : (n == k') = false := beq_eq_false_iff_ne.mpr hn
        simp [upsertSlot, hk, List.lookup, hb, ih]

/-- A successful association-list lookup pinpoints a member. -/
theorem lookup_mem_slots (k : Str) (v : Slot) :
    ∀ l : List (Str × Slot), List.lookup k l = some v → (k, v) ∈ l := by
  intro l
  induction l with
  | nil => intro h; simp [List.lookup] at h
  | cons hd tl ih =>
    intro h
    obtain ⟨k', v'⟩ := hd
    by_cases hk : k = k'
    · have hb : (k == k') = true := beq_iff_eq.mpr hk
      simp only [List.lookup, hb] at h
      obtain rfl := Option.some.inj h
      simp only [List.mem_cons]
      exact Or.inl (by rw [hk])
    · have hb : (k == k') = false := beq_eq_false_iff_ne.mpr hk
      simp only [List.lookup, hb] at h
      exact List.mem_cons_of_mem _ (ih h)

/-- Every entry the slot parser produces is a required, default-free slot
whose kind is `Raw` unless some marker for that name carried a hint. -/
theorem parseSlots_mem (content : Str) :
    ∀ p ∈ parseSlots content, p.2.required = true ∧ p.2.default = none ∧
      (p.2.kind = .raw ∨
        ∃ loc ∈ findMatches content, loc.name = p.1 ∧ loc.kind = some p.2.kind) := by
  have main : ∀ (locs : List SlotLoc) (acc : List (Str × Slot)),
      (∀ l ∈ locs, l ∈ findMatches content) →
      (∀ p ∈ acc, p.2.required = true ∧ p.2.default = none ∧
        (p.2.kind = .raw ∨
          ∃ loc ∈ findMatches content, loc.name = p.1 ∧ loc.kind = some p.2.kind)) →
      ∀ p ∈ locs.foldl (fun acc loc =>
          let slot0 := Slot.new loc.name (s2l "Generate code for: " ++ loc.name)
          let slot := match loc.kind with
            | some k => slot0.withKind k
            | none => slot0
          upsertSlot loc.name slot acc) acc,
        p.2.required = true ∧ p.2.default = none ∧
        (p.2.kind = .raw ∨
          ∃ loc ∈ findMatches content, loc.name = p.1 ∧ loc.kind = some p.2.kind) := by
    intro locs
    induction locs with
    | nil =>
      intro acc _ hacc p hp
      exact hacc p hp
    | cons l0 ls ih =>
      intro acc hsub hacc p hp
      rw [List.foldl_cons] at hp
      refine ih _ (fun l hl => hsub l (List.mem_cons_of_mem _ hl)) ?_ p hp
      intro q hq
      rcases upsertSlot_mem _ _ _ _ hq with h | h
      · subst h
        cases hk : l0.kind with
        | none =>
          simp only [hk]
          exact ⟨rfl, rfl, Or.inl rfl⟩
        | some k =>
          simp only [hk]
          refine ⟨rfl, rfl, Or.inr ⟨l0, hsub l0 (List.mem_cons_self _ _), rfl, ?_⟩⟩
          simp [hk, Slot.withKind, Slot.new]
      · exact hacc q h
  intro p hp
  rw [parseSlots] at hp
  exact main (findMatches content) [] (fun l hl => hl) (by simp) p hp

/-- Every matched location's name is present in the parsed slot map. -/
theorem parseSlots_lookup_isSome (content : Str) :
    ∀ loc ∈ findMatches content,
      (List.lookup loc.name (parseSlots content)).isSome = true := by
  have main : ∀ (locs : List SlotLoc) (acc : List (Str × Slot)) (loc : SlotLoc),
      (loc ∈ locs ∨ (List.lookup loc.name acc).isSome = true) →
      (List.lookup loc.name (locs.foldl (fun acc loc =>
          let slot0 := Slot.new loc.name (s2l "Generate code for: " ++ loc.name)
          let slot := match loc.kind with
            | some k => slot0.withKind k
            | none => slot0
          upsertSlot loc.name slot acc) acc)).isSome = true := by
    intro locs
    induction locs with
    | nil =>
      intro acc loc h
      rcases h with h | h
      · simp at h
      · exact h
    | cons l0 ls ih =>
      intro acc loc h
      rw [List.foldl_cons]
      refine ih _ loc ?_
      rcases h with h | h
      · rcases List.mem_cons.mp h with h0 | h0
        · subst h0
          right
          rw [upsertSlot_lookup, if_pos rfl]
          rfl
        · exact Or.inl h0
      · right
        rw [upsertSlot_lookup]
        by_cases hn : loc.name = l0.name
        · rw [if_pos hn]; rfl
        · rw [if_neg hn]; exact h
  intro loc hloc
  rw [parseSlots]
  exact main (findMatches content) [] loc (Or.inl hloc)

/-- Membership through the descending insertion. -/
theorem insertDesc_mem (x y : SlotLoc) :
    ∀ l : List SlotLoc, y ∈ insertDesc x l ↔ y = x ∨ y ∈ l := by
  intro l
  induction l with
  | nil => simp [insertDesc]
  | cons z zs ih =>
    by_cases hle : z.start ≤ x.start
    · simp [insertDesc, hle]
    · simp [insertDesc, hle, ih]
      tauto

/-- Membership through the descending sort. -/
theorem sortByStartDesc_mem (y : SlotLoc) :
    ∀ l : List SlotLoc, y ∈ sortByStartDesc l ↔ y ∈ l := by
  intro l
  induction l with
  | nil => simp [sortByStartDesc]
  | cons z zs ih =>
    simp only [sortByStartDesc, List.foldr_cons] at *
    rw [insertDesc_mem, ih, List.mem_cons]

/-- The descending insertion preserves descending order. -/
theorem insertDesc_pairwise (x : SlotLoc) :
    ∀ l : List SlotLoc, List.Pairwise (fun a b => b.start ≤ a.start) l →
      List.Pairwise (fun a b => b.start ≤ a.start) (insertDesc x l) := by
  intro l
  induction l with
  | nil =>
    intro _
    simp [insertDesc]
  | cons y ys ih =>
    intro hp
    rw [List.pairwise_cons] at hp
    obtain ⟨hy, hys⟩ := hp
    by_cases hle : y.start ≤ x.start
    · simp only [insertDesc, if_pos hle]
      refine List.pairwise_cons.mpr ⟨?_, List.pairwise_cons.mpr ⟨hy, hys⟩⟩
      intro z hz
      rcases List.mem_cons.mp hz with h | h
      · subst h; exact hle
      · exact le_trans (hy z h) hle
    · simp only [insertDesc, if_neg hle]
      refine List.pairwise_cons.mpr ⟨?_, ih hys⟩
      intro z hz
      rcases (insertDesc_mem x z ys).mp hz with h | h
      · subst h; omega
      · exact hy z h

/-- The reverse-position sort is sorted by decreasing start offset. -/
theorem sortByStartDesc_pairwise :
    ∀ l : List SlotLoc,
      List.Pairwise (fun a b => b.start ≤ a.start) (sortByStartDesc l) := by
  intro l
  induction l with
  | nil => simp [sortByStartDesc]
  | cons z zs ih => exact insertDesc_pairwise z _ ih

/-- When every location is covered (injected, or optional in the slot
map), the replacement loop succeeds and replaces every span with its
chosen fill value, in list order. -/
theorem renderGo_ok (slots : List (Str × Slot)) (inj : List (Str × Str)) :
    ∀ (locs : List SlotLoc) (res : Str),
      (∀ loc ∈ locs, (List.lookup loc.name inj).isSome = true ∨
        (List.lookup loc.name slots).any (fun s => !s.required) = true) →
      renderGo slots inj locs res = .ok (locs.foldl
        (fun r loc => replaceRange r loc.start loc.stop (fillValue slots inj loc)) res) := by
  intro locs
  induction locs with
  | nil =>
    intro res _
    rfl
  | cons loc ls ih =>
    intro res hcov
    have hloc := hcov loc (List.mem_cons_self _ _)
    have hrest := fun l hl => hcov l (List.mem_cons_of_mem _ hl)
    rw [List.foldl_cons]
    cases hinj : List.lookup loc.name inj with
    | some code =>
      simp only [renderGo, hinj]
      rw [ih _ hrest]
      simp [fillValue, hinj]
    | none =>
      rcases hloc with h | h
      · rw [hinj] at h; simp at h
      · cases hslot : List.lookup loc.name slots with
        | none => rw [hslot] at h; simp at h
        | some s =>
          rw [hslot] at h
          simp only [Option.any_some] at h
          have hreq : s.required = false := by
            cases hr : s.required
            · rfl
            · rw [hr] at h; simp at h
          simp only [renderGo, hinj, hslot, hreq]
          rw [ih _ hrest]
          simp [fillValue, hinj, hslot]

/-- When some location names a required slot with no injection (and no
default), the replacement loop fails with a missing-slot error naming a
location that is itself uninjected and required-or-unknown. -/
theorem renderGo_err (slots : List (Str × Slot)) (inj : List (Str × Str)) :
    ∀ (locs : List SlotLoc) (res : Str),
      (∃ loc ∈ locs, List.lookup loc.name inj = none ∧
        ∃ s, List.lookup loc.name slots = some s ∧ s.required = true ∧ s.default = none) →
      ∃ nm, renderGo slots inj locs res = .error (.slotNotFound nm) ∧
        List.lookup nm inj = none ∧
        ((∃ s, List.lookup nm slots = some s ∧ s.required = true) ∨
          List.lookup nm slots = none) := by
  intro locs
  induction locs with
  | nil =>
    intro res h
    simp at h
  | cons l0 ls ih =>
    intro res h
    obtain ⟨loc, hmem, hinjn, s, hs, hreq, hdef⟩ := h
    cases hinj0 : List.lookup l0.name inj with
    | some code =>
      have hls : loc ∈ ls := by
        rcases List.mem_cons.mp hmem with h0 | h0
        · subst h0; rw [hinj0] at hinjn; cases hinjn
        · exact h0
      obtain ⟨nm, hrg, hc⟩ := ih (replaceRange res l0.start l0.stop code)
        ⟨loc, hls, hinjn, s, hs, hreq, hdef⟩
      exact ⟨nm, by simp only [renderGo, hinj0]; exact hrg, hc⟩
    | none =>
      cases hslot0 : List.lookup l0.name slots with
      | none =>
        exact ⟨l0.name, by simp only [renderGo, hinj0, hslot0], hinj0, Or.inr hslot0⟩
      | some s0 =>
        cases hreq0 : s0.required with
        | true =>
          refine ⟨l0.name, ?_, hinj0, Or.inl ⟨s0, hslot0, hreq0⟩⟩
          simp only [renderGo, hinj0, hslot0, hreq0, if_true]
        | false =>
          have hls : loc ∈ ls := by
            rcases List.mem_cons.mp hmem with h0 | h0
            · subst h0
              rw [hslot0] at hs
              cases hs
              rw [hreq0] at hreq
              cases hreq
            · exact h0
          obtain ⟨nm, hrg, hc⟩ := ih
            (replaceRange res l0.start l0.stop (s0.default.getD []))
            ⟨loc, hls, hinjn, s, hs, hreq, hdef⟩
          exact ⟨nm, by simp only [renderGo, hinj0, hslot0, hreq0]; exact hrg, hc⟩

/-- **C5.**  The render contract: the locations are processed in
decreasing-position order; when every matched location either has a
caller-supplied injection or names an optional slot, render succeeds and
replaces every span with the injection if present, else the slot's
default verbatim; and when some location names a required slot with no
injection and no default, render produces no document and returns a
missing-slot error naming a slot that is itself uninjected and
required (or absent from the slot map). -/
theorem template_render_contract (t : Template) (inj : List (Str × Str)) :
    List.Pairwise (fun a b => b.start ≤ a.start) t.findLocations ∧
    ((∀ loc ∈ t.findLocations, (List.lookup loc.name inj).isSome = true ∨
        (List.lookup loc.name t.slots).any (fun s => !s.required) = true) →
      t.render inj = .ok (t.findLocations.foldl
        (fun r loc => replaceRange r loc.start loc.stop (fillValue t.slots inj loc))
        t.content)) ∧
    ((∃ loc ∈ t.findLocations, List.lookup loc.name inj = none ∧
        ∃ s, List.lookup loc.name t.slots = some s ∧ s.required = true ∧ s.default = none) →
      ∃ nm, t.render inj = .error (.slotNotFound nm) ∧
        List.lookup nm inj = none ∧
        ((∃ s, List.lookup nm t.slots = some s ∧ s.required = true) ∨
          List.lookup nm t.slots = none)) :=
  ⟨sortByStartDesc_pairwise _,
   fun hcov => renderGo_ok t.slots inj t.findLocations t.content hcov,
   fun hbad => renderGo_err t.slots inj t.findLocations t.content hbad⟩

/-- **C5, witness.**  A template with one injected slot and one optional
slot left to its default renders to the concrete expected document, and
dropping the injection of a required slot yields its missing-slot
error. -/
theorem template_render_contract_witness :
    ((Template.new (s2l "<a>\x7b\x7bAI:x\x7d\x7d</a>\x7b\x7bAI:y\x7d\x7d")).configureSlot
        ((Slot.new (s2l "y") (s2l "p")).optional (s2l "DEF"))).render
      [(s2l "x", s2l "XX")] = .ok (s2l "<a>XX</a>DEF") := by
  have h := (template_render_contract
    ((Template.new (s2l "<a>\x7b\x7bAI:x\x7d\x7d</a>\x7b\x7bAI:y\x7d\x7d")).configureSlot
      ((Slot.new (s2l "y") (s2l "p")).optional (s2l "DEF")))
    [(s2l "x", s2l "XX")]).2.1 (by decide)
  exact h.trans (congrArg Except.ok (by decide))

/-- **C10.**  `Slot::new` produces a required slot with no default and
kind `Raw`; every auto-created slot of a parsed template is required with
no default, with kind `Raw` unless its marker carried a hint; and
rendering any template containing at least one marker with no injections
at all yields a missing-slot error rather than a document. -/
theorem auto_slot_defaults :
    (∀ n p : Str, (Slot.new n p).required = true ∧ (Slot.new n p).default = none ∧
      (Slot.new n p).kind = .raw) ∧
    (∀ content : Str, ∀ p ∈ parseSlots content,
      p.2.required = true ∧ p.2.default = none ∧
      (p.2.kind = .raw ∨
        ∃ loc ∈ findMatches content, loc.name = p.1 ∧ loc.kind = some p.2.kind)) ∧
    (∀ content : Str, findMatches content ≠ [] →
      ∃ nm, (Template.new content).render [] = .error (.slotNotFound nm)) := by
  refine ⟨fun n p => ⟨rfl, rfl, rfl⟩, parseSlots_mem, ?_⟩
  intro content hne
  cases hfl : sortByStartDesc (findMatches content) with
  | nil =>
    exfalso
    apply hne
    cases hfm : findMatches content with
    | nil => rfl
    | cons l ls =>
      exfalso
      have : l ∈ sortByStartDesc (findMatches content) := by
        rw [sortByStartDesc_mem, hfm]
        exact List.mem_cons_self _ _
      rw [hfl] at this
      simp at this
  | cons loc rest =>
    have hlocmem : loc ∈ findMatches content := by
      rw [← sortByStartDesc_mem loc (findMatches content), hfl]
      exact List.mem_cons_self _ _
    have hsome := parseSlots_lookup_isSome content loc hlocmem
    obtain ⟨s, hs⟩ := Option.isSome_iff_exists.mp hsome
    have hmem := lookup_mem_slots _ _ _ hs
    have hq := (parseSlots_mem content) (loc.name, s) hmem
    refine ⟨loc.name, ?_⟩
    have hrender : (Template.new content).render [] =
        renderGo (parseSlots content) [] (sortByStartDesc (findMatches content)) content := rfl
    have hreq : s.required = true := hq.1
    have hinj : List.lookup loc.name ([] : List (Str × Str)) = none := rfl
    rw [hrender, hfl]
    simp only [renderGo, hinj, hs, hreq, if_true]

/-- **C10, witness.**  A concrete single-marker template: rendering with
no injections is the missing-slot error for that slot, never empty
text. -/
theorem auto_slot_defaults_witness :
    ((Slot.new (s2l "gen") (s2l "p")).required = true ∧
      (Slot.new (s2l "gen") (s2l "p")).default = none ∧
      (Slot.new (s2l "gen") (s2l "p")).kind = .raw) ∧
    ∃ nm, (Template.new (s2l "\x7b\x7bAI:gen\x7d\x7d")).render [] =
      .error (.slotNotFound nm) :=
  ⟨auto_slot_defaults.1 (s2l "gen") (s2l "p"),
   auto_slot_defaults.2.2 (s2l "\x7b\x7bAI:gen\x7d\x7d") (by decide)⟩


-- ============================================================
-- Incremental rendering (C6)
-- ============================================================

/-- Lookup after a session insert. -/
theorem sessionInsert_lookup (k k' : Nat × Nat) (v : Str) :
    ∀ sess : RenderSession,
      List.lookup k' (sessionInsert k v sess) =
        if k' = k then some v else List.lookup k' sess := by
  intro sess
  induction sess with
  | nil =>
    by_cases hk : k' = k
    · have hb : (k' == k) = true := beq_iff_eq.mpr hk
      simp [sessionInsert, List.lookup, hb, hk]
    · have hb : (k' == k) = false := beq_eq_false_iff_ne.mpr hk
      simp [sessionInsert, List.lookup, hb, hk]
  | cons hd tl ih =>
    obtain ⟨k0, v0⟩ := hd
    by_cases h0 : k0 = k
    · subst h0
      by_cases hk : k' = k0
      · have hb : (k' == k0) = true := beq_iff_eq.mpr hk
        simp [sessionInsert, List.lookup, hb, hk]
      · have hb : (k' == k0) = false := beq_eq_false_iff_ne.mpr hk
        simp [sessionInsert, List.lookup, hb, hk]
    · by_cases hk : k' = k0
      · have hb : (k' == k0) = true := beq_iff_eq.mpr hk
        have hkk : ¬k' = k := fun h => h0 (hk.symm.trans h)
        simp [sessionInsert, h0, List.lookup, hb, hkk]
      · have hb : (k' == k0) = false := beq_eq_false_iff_ne.mpr hk
        simp [sessionInsert, h0, List.lookup, hb, ih]

/-- When every remaining slot's fingerprint is in the session, the
incremental loop is pure reuse: no generation, no session change, and the
stored texts appended in slot order. -/
theorem incrGo_hits (gen : Slot → Except AErr Str) (ctxHash : Nat) :
    ∀ (slots : List (Str × Slot)) (sess : RenderSession) (called : List Str)
      (inj : List (Str × Str)),
      (∀ p ∈ slots, (List.lookup (slotStableHash p.2, ctxHash) sess).isSome = true) →
      incrGo gen ctxHash slots sess called inj =
        (.ok (inj ++ slots.map
          (fun p => (p.1, (List.lookup (slotStableHash p.2, ctxHash) sess).getD []))),
         sess, called) := by
  intro slots
  induction slots with
  | nil =>
    intro sess called inj _
    simp [incrGo]
  | cons p0 rest ih =>
    intro sess called inj hall
    obtain ⟨n0, s0⟩ := p0
    have h0 := hall (n0, s0) (List.mem_cons_self _ _)
    obtain ⟨v0, hv0⟩ := Option.isSome_iff_exists.mp h0
    simp only [incrGo, hv0]
    rw [ih sess called (inj ++ [(n0, v0)])
      (fun p hp => hall p (List.mem_cons_of_mem _ hp))]
    simp [hv0]

/-- The incremental loop over a slot list with exactly one fingerprint
miss: that slot alone is generated (and its result stored under its
(slot hash, context hash) key); all others are reused from the session. -/
theorem incrGo_one_miss (gen : Slot → Except AErr Str) (ctxHash : Nat)
    (nm : Str) (sj : Slot) (c : Str) (hok : gen sj = .ok c) :
    ∀ (pre post : List (Str × Slot)) (sess : RenderSession) (called : List Str)
      (inj : List (Str × Str)),
      List.lookup (slotStableHash sj, ctxHash) sess = none →
      (∀ p ∈ pre, (List.lookup (slotStableHash p.2, ctxHash) sess).isSome = true) →
      (∀ p ∈ post, (List.lookup (slotStableHash p.2, ctxHash) sess).isSome = true) →
      incrGo gen ctxHash (pre ++ (nm, sj) :: post) sess called inj =
        (.ok (inj ++ pre.map
            (fun p => (p.1, (List.lookup (slotStableHash p.2, ctxHash) sess).getD [])) ++
          (nm, c) :: post.map
            (fun p => (p.1, (List.lookup (slotStableHash p.2, ctxHash) sess).getD []))),
         sessionInsert (slotStableHash sj, ctxHash) c sess,
         called ++ [nm]) := by
  intro pre
  induction pre with
  | nil =>
    intro post sess called inj hmiss _ hpost
    rw [List.nil_append]
    simp only [incrGo, hmiss, hok]
    rw [incrGo_hits gen ctxHash post _ _ _ ?_]
    · refine congrArg₂ (fun a b => (Except.ok a, sessionInsert (slotStableHash sj, ctxHash) c sess, b)) ?_ rfl
      rw [List.map_nil, List.append_nil, List.append_assoc, List.singleton_append]
      refine congrArg (fun l => inj ++ (nm, c) :: l) ?_
      refine List.map_congr_left fun p hp => ?_
      have hps := hpost p hp
      have hne : (slotStableHash p.2, ctxHash) ≠ (slotStableHash sj, ctxHash) := by
        intro he
        rw [he, hmiss] at hps
        simp at hps
      rw [sessionInsert_lookup, if_neg hne]
    · intro p hp
      have hps := hpost p hp
      have hne : (slotStableHash p.2, ctxHash) ≠ (slotStableHash sj, ctxHash) := by
        intro he
        rw [he, hmiss] at hps
        simp at hps
      rw [sessionInsert_lookup, if_neg hne]
      exact hps
  | cons p0 pre' ih =>
    intro post sess called inj hmiss hpre hpost
    obtain ⟨n0, s0⟩ := p0
    have h0 := hpre (n0, s0) (List.mem_cons_self _ _)
    obtain ⟨v0, hv0⟩ := Option.isSome_iff_exists.mp h0
    rw [List.cons_append]
    simp only [incrGo, hv0]
    rw [ih post sess (called) (inj ++ [(n0, v0)]) hmiss
      (fun p hp => hpre p (List.mem_cons_of_mem _ hp)) hpost]
    simp [hv0]

/-- **C6.**  Re-rendering a template incrementally after exactly one
slot's definition changed (its fingerprint absent from the session), with
every other slot's fingerprint present: the backend runs for exactly the
changed slot, its result is stored under the stable
(slot hash, context hash) key — both hashes pure functions of the data,
independent of process identity — and every other slot's text is taken
unchanged from the session. -/
theorem incremental_regenerates_only_changed (gen : Slot → Except AErr Str)
    (ctxHash : Nat) (t : Template) (sess : RenderSession)
    (pre post : List (Str × Slot)) (nm : Str) (sj : Slot) (c : Str)
    (hslots : t.slots = pre ++ (nm, sj) :: post)
    (hok : gen sj = .ok c)
    (hmiss : List.lookup (slotStableHash sj, ctxHash) sess = none)
    (hpre : ∀ p ∈ pre, (List.lookup (slotStableHash p.2, ctxHash) sess).isSome = true)
    (hpost : ∀ p ∈ post, (List.lookup (slotStableHash p.2, ctxHash) sess).isSome = true) :
    (renderIncremental gen ctxHash t sess).generated = [nm] ∧
    (renderIncremental gen ctxHash t sess).session =
      sessionInsert (slotStableHash sj, ctxHash) c sess ∧
    (renderIncremental gen ctxHash t sess).injections =
      pre.map (fun p => (p.1, (List.lookup (slotStableHash p.2, ctxHash) sess).getD [])) ++
      (nm, c) :: post.map
        (fun p => (p.1, (List.lookup (slotStableHash p.2, ctxHash) sess).getD [])) := by
  have hrun := incrGo_one_miss gen ctxHash nm sj c hok pre post sess [] []
    hmiss hpre hpost
  rw [renderIncremental, hslots, hrun]
  exact ⟨rfl, rfl, by simp⟩

/-- **C6, witness.**  Two slots fully rendered into a session; the second
slot's prompt changes.  Re-rendering generates only that slot, stores it
under its new fingerprint, and reuses the first slot's stored text. -/
theorem incremental_regenerates_only_changed_witness :
    (renderIncremental
      (fun s => .ok (if s.prompt = s2l "pb2" then s2l "B2" else s2l "X")) 7
      ⟨s2l "\x7b\x7bAI:a\x7d\x7d\x7b\x7bAI:b\x7d\x7d", s2l "unnamed",
        [(s2l "a", Slot.new (s2l "a") (s2l "pa")),
         (s2l "b", { Slot.new (s2l "b") (s2l "pb") with prompt := s2l "pb2" })]⟩
      [((slotStableHash (Slot.new (s2l "a") (s2l "pa")), 7), s2l "A"),
       ((slotStableHash (Slot.new (s2l "b") (s2l "pb")), 7), s2l "B")]).generated =
      [s2l "b"] :=
  (incremental_regenerates_only_changed
    (fun s => .ok (if s.prompt = s2l "pb2" then s2l "B2" else s2l "X")) 7
    ⟨s2l "\x7b\x7bAI:a\x7d\x7d\x7b\x7bAI:b\x7d\x7d", s2l "unnamed",
      [(s2l "a", Slot.new (s2l "a") (s2l "pa")),
       (s2l "b", { Slot.new (s2l "b") (s2l "pb") with prompt := s2l "pb2" })]⟩
    [((slotStableHash (Slot.new (s2l "a") (s2l "pa")), 7), s2l "A"),
     ((slotStableHash (Slot.new (s2l "b") (s2l "pb")), 7), s2l "B")]
    [(s2l "a", Slot.new (s2l "a") (s2l "pa"))] []
    (s2l "b") { Slot.new (s2l "b") (s2l "pb") with prompt := s2l "pb2" } (s2l "B2")
    rfl rfl (by decide) (by decide) (by decide)).1


end Aether
